import Mathlib

/-!
A shallow embedding of the simulation core of the `solisora` repository
(`src/sim/mod.rs`, `src/sim/planet.rs`, `src/sim/ship.rs`).

Modelling conventions:
* `f32` values are modelled as exact rationals (`ℚ`); decimal literals of the
  source are taken at face value.  The transcendental floating-point
  operations (`cos`, `sin`, `sqrt`, `atan2`) are modelled as components of an
  `Oracle` parameter that is universally quantified in the theorems; where a
  claim genuinely needs real square roots (the arrival detector) the function
  is additionally embedded over `ℝ` with `Real.sqrt`.
* The pseudo-random generator (`StdRng` and `thread_rng`) is modelled as
  streams of draws inside `Oracle` / `GenRng`, consumed at an explicit
  position counter, so every random run of the program corresponds to some
  oracle instance.
* Rust's `%` on floats is truncated remainder (`rustRem`).
* Panics (`unwrap`, explicit `panic!`, indexing out of bounds) are modelled
  by `Option` results where a claim is about the panic itself
  (`pirate_in_range`, `Sim::new`'s body-count check) and as no-ops deep
  inside the tick functions, where the relevant theorems carry hypotheses
  that exclude those branches.
-/

namespace Solisora

/-- Truncation toward zero on `ℚ`, as Rust's float-to-int `trunc`. -/
def qtrunc (q : ℚ) : ℤ := if 0 ≤ q then ⌊q⌋ else ⌈q⌉

/-- Rust's `%` on floats: truncated remainder, keeps the dividend's sign. -/
def rustRem (x y : ℚ) : ℚ := x - y * (qtrunc (x / y) : ℚ)

/-- The `f32` constant `TAU` (`2π` rounded to single precision), exactly. -/
def tau : ℚ := 13176795 / 2097152

/-- The `f32` constant `PI` rounded to single precision, exactly. -/
def piQ : ℚ := 13176795 / 4194304


/-! ## The arrival detector over the reals (source: `arrived` in
`Sim::update_ship`, `src/sim/mod.rs`).

The positions before and after the movement step and the target disc are
translated into the target's frame; the segment is substituted into the
circle equation, giving a quadratic with coefficients `arrA`, `arrB`,
`arrC`; `arrived` reports a crossing from the sign of the discriminant and
the two roots. -/

/-- `old_x = old_ship_pos.x - pl_pos.x` (and the three analogues). -/
def oldX (oldShipPos plPos : ℝ × ℝ) : ℝ := oldShipPos.1 - plPos.1

def oldY (oldShipPos plPos : ℝ × ℝ) : ℝ := oldShipPos.2 - plPos.2

def newX (shipPos plPos : ℝ × ℝ) : ℝ := shipPos.1 - plPos.1

def newY (shipPos plPos : ℝ × ℝ) : ℝ := shipPos.2 - plPos.2

/-- `a = (new_x - old_x)^2 + (new_y - old_y)^2`. -/
def arrA (shipPos oldShipPos plPos : ℝ × ℝ) : ℝ :=
  (newX shipPos plPos - oldX oldShipPos plPos) ^ 2 +
    (newY shipPos plPos - oldY oldShipPos plPos) ^ 2

/-- `b = 2 (old_x (new_x - old_x) + old_y (new_y - old_y))`. -/
def arrB (shipPos oldShipPos plPos : ℝ × ℝ) : ℝ :=
  2 * (oldX oldShipPos plPos * (newX shipPos plPos - oldX oldShipPos plPos) +
       oldY oldShipPos plPos * (newY shipPos plPos - oldY oldShipPos plPos))

/-- `c = old_x^2 + old_y^2 - pl_rad^2`. -/
def arrC (oldShipPos plPos : ℝ × ℝ) (plRad : ℝ) : ℝ :=
  oldX oldShipPos plPos ^ 2 + oldY oldShipPos plPos ^ 2 - plRad ^ 2

/-- `disc = b^2 - 4 a c`. -/
def arrDisc (shipPos oldShipPos plPos : ℝ × ℝ) (plRad : ℝ) : ℝ :=
  arrB shipPos oldShipPos plPos ^ 2 -
    4 * arrA shipPos oldShipPos plPos * arrC oldShipPos plPos plRad

/-- `t1 = (-b + sqrt disc) / (2a)`. -/
noncomputable def arrT1 (shipPos oldShipPos plPos : ℝ × ℝ) (plRad : ℝ) : ℝ :=
  (arrB shipPos oldShipPos plPos * (-1) +
      Real.sqrt (arrDisc shipPos oldShipPos plPos plRad)) /
    (2 * arrA shipPos oldShipPos plPos)

/-- `t2 = (-b - sqrt disc) / (2a)`. -/
noncomputable def arrT2 (shipPos oldShipPos plPos : ℝ × ℝ) (plRad : ℝ) : ℝ :=
  (arrB shipPos oldShipPos plPos * (-1) -
      Real.sqrt (arrDisc shipPos oldShipPos plPos plRad)) /
    (2 * arrA shipPos oldShipPos plPos)

open Classical in
/-- The swept-circle arrival test, translated clause by clause from the
source's `arrived`: an early `false` when the discriminant is non-positive,
otherwise `true` iff one of the two roots lies in the open interval
`(0, 1)`. -/
noncomputable def arrived (shipPos oldShipPos plPos : ℝ × ℝ) (plRad : ℝ) : Prop :=
  if arrDisc shipPos oldShipPos plPos plRad ≤ 0 then False
  else
    (0 < arrT1 shipPos oldShipPos plPos plRad ∧ arrT1 shipPos oldShipPos plPos plRad < 1) ∨
    (0 < arrT2 shipPos oldShipPos plPos plRad ∧ arrT2 shipPos oldShipPos plPos plRad < 1)

/-! ## Data model (source: `src/sim/planet.rs`, `src/sim/ship.rs`,
`SimConfig` in `src/sim/mod.rs`). -/

/-- `PlanetFeature`: `Station { stock: usize }` or `Ore`. -/
inductive PlanetFeature
  | Station (stock : ℕ)
  | Ore
deriving DecidableEq, Repr

/-- `Orbit` (source: `src/sim/planet.rs`). -/
structure Orbit where
  parent_index : ℕ
  dist : ℚ
  speed : ℚ
  ccw : Bool
  angle : ℚ
deriving DecidableEq, Repr

/-- `Planet` (source: `src/sim/planet.rs`). -/
structure Planet where
  pos : ℚ × ℚ
  rad : ℚ
  orbit : Option Orbit
  feat : Option PlanetFeature
  moon_indices : List ℕ
deriving DecidableEq, Repr

/-- `Planet::new(radius)`. -/
def Planet.new (radius : ℚ) : Planet :=
  { pos := (0, 0), rad := radius, orbit := none, feat := none, moon_indices := [] }

/-- `ShipJob` (source: `src/sim/ship.rs`). -/
inductive ShipJob
  | Trader (cargo : Bool)
  | Miner
  | Pirate (origin : ℚ × ℚ)
deriving DecidableEq, Repr

/-- `ShipGoal` (source: `src/sim/ship.rs`). -/
inductive ShipGoal
  | Visit (target : ℕ)
  | Wait (target : ℕ) (progress : ℤ)
  | Wander
  | Hunt (prey : ℕ) (progress : ℤ)
  | Scan
deriving DecidableEq, Repr

/-- `Ship` (source: `src/sim/ship.rs`). -/
structure Ship where
  pos : ℚ × ℚ
  speed : ℚ
  initial_speed : ℚ
  angle : ℚ
  goal : ShipGoal
  job : ShipJob
deriving DecidableEq, Repr

/-- `Ship::new(job, speed)`; `angleDraw` is the `thread_rng().gen::<f32>()`
draw used for the initial heading. -/
def Ship.new (job : ShipJob) (speed : ℚ) (angleDraw : ℚ) : Ship :=
  { pos := (0, 0), speed := speed, initial_speed := speed,
    angle := angleDraw * (628 / 100), goal := ShipGoal.Visit 0, job := job }

/-- `SimConfig` (source: `src/sim/mod.rs`).  The two `Range` fields are
split into their endpoints; the optional seed is superseded by the oracle
model of the generator. -/
structure SimConfig where
  system_rad : ℚ
  sun_rad : ℚ
  pl_moon_prob : ℚ
  pl_feat_prob : ℚ
  pl_size_lo : ℚ
  pl_size_hi : ℚ
  ship_speed : ℚ
  ship_acceleration : ℚ
  ship_cost : ℕ
  miner_count : ℕ
  harvest_duration : ℕ
  harvest_lo : ℤ
  harvest_hi : ℤ
  pirate_count : ℕ
  pirate_territory : ℚ
  raid_range : ℚ
  raid_duration : ℕ
  raid_lo : ℤ
  raid_hi : ℤ
  death_prob : ℚ
deriving DecidableEq, Repr

/-- The simulation state (`Sim` minus the `StdRng` and the `SimConfig`,
which are modelled by the oracle streams plus the `rng` draw counter, and by
an explicit `cfg` argument of every function). -/
structure Sim where
  system : List Planet
  system_rad : ℚ
  ships : List Ship
  killed : List ℕ
  rng : ℕ
deriving DecidableEq, Repr

/-- The oracle bundling the floating-point transcendental functions and the
streams of pseudo-random draws consumed during a tick.  Universally
quantified in the theorems: every run of the real program is one oracle
instance. -/
structure Oracle where
  cosF : ℚ → ℚ
  sinF : ℚ → ℚ
  sqrtF : ℚ → ℚ
  atan2F : ℚ → ℚ → ℚ
  coin : ℕ → Bool
  pickD : ℕ → ℕ
  rangeD : ℕ → ℕ
  shipAngle : ℕ → ℚ

/-- Junk values standing for the unreachable results of operations the
source program would have panicked on. -/
def junkPlanet : Planet := Planet.new 0

def junkShip : Ship := Ship.new ShipJob.Miner 0 0

def planetAt (sys : List Planet) (i : ℕ) : Planet := sys.getD i junkPlanet

def posOf (sys : List Planet) (i : ℕ) : ℚ × ℚ := (planetAt sys i).pos

def radOf (sys : List Planet) (i : ℕ) : ℚ := (planetAt sys i).rad

def moonsOf (sys : List Planet) (i : ℕ) : List ℕ := (planetAt sys i).moon_indices

def shipAt (ships : List Ship) (i : ℕ) : Ship := ships.getD i junkShip

/-- Squared Euclidean distance (`cgmath`'s `distance2`). -/
def dist2 (p q : ℚ × ℚ) : ℚ := (p.1 - q.1) ^ 2 + (p.2 - q.2) ^ 2

/-- `IteratorRandom::choose` over a list, driven by one raw draw; `none`
exactly when the list is empty (where the source's `.unwrap()` panics). -/
def chooseList {α : Type} (l : List α) (d : ℕ) : Option α :=
  if l.isEmpty then none else l.get? (d % l.length)

/-- `Rng::gen_range(lo..hi)` over `isize`, driven by one raw draw. -/
def chooseRange (lo hi : ℤ) (d : ℕ) : ℤ := lo + (d % (hi - lo).toNat : ℕ)

/-- The `stock` helper of `Sim::update_ship_goal`: the stock of a planet
that has a `Station` feature; `none` models its `panic!`. -/
def stockOf (pl : Planet) : Option ℕ :=
  match pl.feat with
  | some (PlanetFeature.Station s) => some s
  | _ => none

/-- Overwrite the stock of a station (used only where `stockOf` is `some`). -/
def setStock (pl : Planet) (s : ℕ) : Planet :=
  { pl with feat := some (PlanetFeature.Station s) }

/-- `*stock(&mut self.system[i]) += 1`; a no-op stands for the panic branch
(the relevant theorems exclude it by hypothesis). -/
def incStock (sys : List Planet) (i : ℕ) : List Planet :=
  match stockOf (planetAt sys i) with
  | some s => sys.set i (setStock (planetAt sys i) (s + 1))
  | none => sys

/-- `*stock(&mut self.system[i]) -= 1`. -/
def decStock (sys : List Planet) (i : ℕ) : List Planet :=
  match stockOf (planetAt sys i) with
  | some s => sys.set i (setStock (planetAt sys i) (s - 1))
  | none => sys

/-- Feature-kind check by discriminant only (`std::mem::discriminant`),
source: `filter_system`. -/
def featMatches (filter : Option PlanetFeature) (feat : Option PlanetFeature) : Bool :=
  match filter, feat with
  | some (PlanetFeature.Station _), some (PlanetFeature.Station _) => true
  | some PlanetFeature.Ore, some PlanetFeature.Ore => true
  | some _, _ => false
  | none, f => f.isNone

/-- `filter_system`: indices of planets whose feature matches by kind. -/
def filter_system (sys : List Planet) (filter : Option PlanetFeature) : List ℕ :=
  (List.range sys.length).filter (fun i => featMatches filter (planetAt sys i).feat)

def station_indices (sys : List Planet) : List ℕ :=
  filter_system sys (some (PlanetFeature.Station 0))

def ore_indices (sys : List Planet) : List ℕ :=
  filter_system sys (some PlanetFeature.Ore)

/-- `nearest_with_feature`: matching indices sorted ascending by squared
distance to `pos`. -/
def nearest_with_feature (sys : List Planet) (filter : Option PlanetFeature)
    (pos : ℚ × ℚ) : List ℕ :=
  (filter_system sys filter).mergeSort
    (fun a b => decide (dist2 pos (posOf sys a) ≤ dist2 pos (posOf sys b)))

/-! ## Per-tick functions (source: `Sim::update` and helpers,
`src/sim/mod.rs`). -/

/-- `update_ship_pos` (inner helper of `Sim::update_ship`): move toward the
destination by the fraction `speed` of the offset, and point the heading
along the travel vector. -/
def update_ship_pos (O : Oracle) (ship : Ship) (dest : ℚ × ℚ) : Ship :=
  let dx := dest.1 - ship.pos.1
  let dy := dest.2 - ship.pos.2
  { ship with
      pos := (ship.pos.1 + dx * ship.speed, ship.pos.2 + dy * ship.speed),
      angle := O.atan2F dx dy + piQ }

/-- The `arrived` helper of `Sim::update_ship` over `ℚ`, with the oracle
standing for the `f32` square root (the same source function is embedded
over `ℝ` as `arrived` above for the root analysis of C5). -/
def arrivedQ (O : Oracle) (shipPos oldShipPos plPos : ℚ × ℚ) (plRad : ℚ) : Bool :=
  let ox := oldShipPos.1 - plPos.1
  let oy := oldShipPos.2 - plPos.2
  let nx := shipPos.1 - plPos.1
  let ny := shipPos.2 - plPos.2
  let a := (nx - ox) ^ 2 + (ny - oy) ^ 2
  let b := 2 * (ox * (nx - ox) + oy * (ny - oy))
  let c := ox ^ 2 + oy ^ 2 - plRad ^ 2
  let disc := b ^ 2 - 4 * a * c
  if disc ≤ 0 then false
  else
    let ds := O.sqrtF disc
    let t1 := (b * (-1) + ds) / (2 * a)
    let t2 := (b * (-1) - ds) / (2 * a)
    decide ((0 < t1 ∧ t1 < 1) ∨ (0 < t2 ∧ t2 < 1))

/-- The body update of `Sim::update_planet_pos` for a single index: advance
the orbit angle (with the speed multiplier, the sun/parent radius ratio, the
rotation direction, and — for first-order planets — the nearer-is-faster
correction), wrap it with `%= TAU`, and recompute the position from the
parent. -/
def update_planet_body (O : Oracle) (sysRad : ℚ) (sys : List Planet) (i : ℕ) :
    List Planet :=
  match (planetAt sys i).orbit with
  | none => sys
  | some orb =>
    let parentPos := posOf sys orb.parent_index
    let offset0 : ℚ := (174 / 10000)
    let offset1 := offset0 * orb.speed
    let offset2 := offset1 * (radOf sys 0 / radOf sys orb.parent_index)
    let offset3 := offset2 * (if orb.ccw then -1 else 1)
    let tempAngle := rustRem (orb.angle + offset3) tau
    let dist := O.sqrtF (dist2
      (parentPos.1 + orb.dist * O.cosF tempAngle,
       parentPos.2 + orb.dist * O.sinF tempAngle) (0, 0))
    let offset4 :=
      if orb.parent_index = 0 then offset3 * (O.sqrtF (sysRad - dist) / sysRad)
      else offset3
    let newOrb := { orb with angle := rustRem (orb.angle + offset4) tau }
    sys.set i
      { planetAt sys i with
          pos := (parentPos.1 + newOrb.dist * O.cosF newOrb.angle,
                  parentPos.2 + newOrb.dist * O.sinF newOrb.angle),
          orbit := some newOrb }

/-- `Sim::update_planet_pos`: update the body at the given index, then
recurse into its moons.  The recursion is fuelled; the fuel bounds the tree
depth and `Sim::update` supplies the system size, which suffices since every
moon index exceeds its parent's in generated systems. -/
def update_planet_pos (O : Oracle) (sysRad : ℚ) :
    ℕ → List Planet → ℕ → List Planet
  | 0, sys, _ => sys
  | fuel + 1, sys, i =>
    let sys1 := update_planet_body O sysRad sys i
    (moonsOf sys1 i).foldl (fun s m => update_planet_pos O sysRad fuel s m) sys1

/-- The orbit-integration phase of `Sim::update`:
`self.update_planet_pos(0)`. -/
def planetPhase (O : Oracle) (st : Sim) : Sim :=
  { st with system := update_planet_pos O st.system_rad st.system.length st.system 0 }

/-- The stock decrement of the trader-spawning loop of `Sim::update`,
for one planet. -/
def spawnStock (cfg : SimConfig) (pl : Planet) : Planet :=
  match pl.feat with
  | some (PlanetFeature.Station s) =>
    if cfg.ship_cost < s then setStock pl (s - cfg.ship_cost) else pl
  | _ => pl

/-- The ship pushed by the trader-spawning loop of `Sim::update` for one
(index, planet) pair, if its station's stock exceeds the cost. -/
def spawnShipFrom (cfg : SimConfig) (O : Oracle) (ip : ℕ × Planet) : Option Ship :=
  match ip.2.feat with
  | some (PlanetFeature.Station s) =>
    if cfg.ship_cost < s then
      some { Ship.new (ShipJob.Trader false) cfg.ship_speed (O.shipAngle ip.1) with
               pos := ip.2.pos, goal := ShipGoal.Visit ip.1 }
    else none
  | _ => none

/-- The trader-spawning phase of `Sim::update`: every station whose stock
exceeds `ship_cost` pays the cost and appends one fresh trader docked at
itself. -/
def spawnPhase (cfg : SimConfig) (O : Oracle) (st : Sim) : Sim :=
  { st with
      system := st.system.map (spawnStock cfg),
      ships := st.ships ++ st.system.enum.filterMap (spawnShipFrom cfg O) }

/-- `Sim::update_ship_goal` (the transition table of the goal state
machine), one-to-one with the source's `match (job, goal)`. -/
def update_ship_goal (cfg : SimConfig) (O : Oracle) (st : Sim) (i : ℕ) : Sim :=
  match (shipAt st.ships i).job, (shipAt st.ships i).goal with
  | ShipJob.Trader cargo, ShipGoal.Visit target =>
    let st1 : Sim :=
      if cargo then
        { st with
            system := incStock st.system target,
            ships := st.ships.set i { shipAt st.ships i with job := ShipJob.Trader false } }
      else st
    let stations := (station_indices st1.system).filter (fun pl => pl ≠ target)
    (match chooseList stations (O.pickD st1.rng) with
     | none => { st1 with rng := st1.rng + 1 }
     | some dest =>
       let st2 : Sim := { st1 with rng := st1.rng + 1 }
       let target_res := (stockOf (planetAt st2.system target)).getD 0
       let dest_res := (stockOf (planetAt st2.system dest)).getD 0
       let st3 : Sim :=
         if dest_res < target_res ∧ cargo = false then
           { st2 with
               system := decStock st2.system target,
               ships := st2.ships.set i { shipAt st2.ships i with job := ShipJob.Trader true } }
         else st2
       { st3 with
           ships := st3.ships.set i { shipAt st3.ships i with goal := ShipGoal.Visit dest } })
  | ShipJob.Miner, ShipGoal.Visit target =>
    (match (planetAt st.system target).feat with
     | some (PlanetFeature.Station _) =>
       let sys := incStock st.system target
       let ores := nearest_with_feature sys (some PlanetFeature.Ore) (shipAt st.ships i).pos
       (match ores with
        | [] => { st with system := sys }
        | o :: _ =>
          { st with
              system := sys,
              ships := st.ships.set i { shipAt st.ships i with goal := ShipGoal.Visit o } })
     | some PlanetFeature.Ore =>
       let progress := chooseRange cfg.harvest_lo cfg.harvest_hi (O.rangeD st.rng)
       { st with
           rng := st.rng + 1,
           ships := st.ships.set i { shipAt st.ships i with goal := ShipGoal.Wait target progress } }
     | none => st)
  | ShipJob.Miner, ShipGoal.Wait _ _ =>
    let stations := nearest_with_feature st.system (some (PlanetFeature.Station 0))
      (shipAt st.ships i).pos
    (match stations with
     | [] => st
     | s :: _ =>
       { st with ships := st.ships.set i { shipAt st.ships i with goal := ShipGoal.Visit s } })
  | ShipJob.Pirate _, ShipGoal.Wander =>
    { st with ships := st.ships.set i { shipAt st.ships i with goal := ShipGoal.Scan } }
  | ShipJob.Pirate _, ShipGoal.Scan =>
    let prey_indices := (List.range st.ships.length).filter (fun t =>
      match (shipAt st.ships t).job with
      | ShipJob.Trader true =>
        decide (O.sqrtF (dist2 (shipAt st.ships i).pos (shipAt st.ships t).pos) <
          cfg.pirate_territory * (1 / 2))
      | _ => false)
    (match chooseList prey_indices (O.pickD st.rng) with
     | some preyIdx =>
       let progress := chooseRange cfg.raid_lo cfg.raid_hi (O.rangeD (st.rng + 1))
       { st with
           rng := st.rng + 2,
           ships := st.ships.set i { shipAt st.ships i with goal := ShipGoal.Hunt preyIdx progress } }
     | none =>
       { st with
           rng := st.rng + 1,
           ships := st.ships.set i { shipAt st.ships i with goal := ShipGoal.Wander } })
  | ShipJob.Pirate _, ShipGoal.Hunt prey _ =>
    let ships1 :=
      match (shipAt st.ships prey).job with
      | ShipJob.Trader _ =>
        st.ships.set prey { shipAt st.ships prey with job := ShipJob.Trader false }
      | _ => st.ships
    { st with ships := ships1.set i { shipAt ships1 i with goal := ShipGoal.Wander } }
  | _, _ => st

/-- `Sim::update_ship`: the movement phase of one ship plus the call into
`update_ship_goal` when the goal signals completion. -/
def update_ship (cfg : SimConfig) (O : Oracle) (st : Sim) (i : ℕ) : Sim :=
  match (shipAt st.ships i).goal with
  | ShipGoal.Visit target =>
    let plPos := posOf st.system target
    let plRad := radOf st.system target
    let oldShipPos := (shipAt st.ships i).pos
    let ship1 := update_ship_pos O (shipAt st.ships i) plPos
    let ship2 := { ship1 with speed := ship1.speed * cfg.ship_acceleration }
    if arrivedQ O ship2.pos oldShipPos plPos plRad then
      update_ship_goal cfg O
        { st with ships := st.ships.set i { ship2 with speed := ship2.initial_speed } } i
    else { st with ships := st.ships.set i ship2 }
  | ShipGoal.Wait target progress =>
    let ship1 := { shipAt st.ships i with
                     pos := posOf st.system target,
                     goal := ShipGoal.Wait target (progress + 1) }
    let st1 : Sim := { st with ships := st.ships.set i ship1 }
    if progress = (cfg.harvest_duration : ℤ) then update_ship_goal cfg O st1 i else st1
  | ShipGoal.Wander =>
    (match (shipAt st.ships i).job with
     | ShipJob.Pirate origin =>
       let ship := shipAt st.ships i
       let dist := O.sqrtF (dist2 ship.pos origin)
       if cfg.pirate_territory < dist then
         { st with ships := st.ships.set i (update_ship_pos O ship origin) }
       else
         let angle_offset : ℚ := if O.coin st.rng then (-348 / 10000) else (348 / 10000)
         let ship1 := { ship with angle := ship.angle + angle_offset }
         let ship2 := { ship1 with
           pos := (ship1.pos.1 + O.cosF (ship1.angle + (1566 / 1000)) * ship1.speed,
                   ship1.pos.2 - O.sinF (ship1.angle + (1566 / 1000)) * ship1.speed) }
         update_ship_goal cfg O
           { st with rng := st.rng + 1, ships := st.ships.set i ship2 } i
     | _ => st)
  | ShipGoal.Scan => update_ship_goal cfg O st i
  | ShipGoal.Hunt prey progress =>
    let preyPos := (shipAt st.ships prey).pos
    let ship1 := update_ship_pos O (shipAt st.ships i) preyPos
    let st1 : Sim := { st with ships := st.ships.set i ship1 }
    let preyDist := O.sqrtF (dist2 ship1.pos preyPos)
    (match (shipAt st1.ships prey).job with
     | ShipJob.Trader cargo =>
       if cargo = false then update_ship_goal cfg O st1 i
       else if preyDist < cfg.raid_range then
         let ships2 := st1.ships.set prey
           { shipAt st1.ships prey with speed := (shipAt st1.ships prey).initial_speed }
         let ships3 := ships2.set i
           { shipAt ships2 i with goal := ShipGoal.Hunt prey (progress + 1) }
         let st2 : Sim := { st1 with ships := ships3 }
         if (cfg.raid_duration : ℤ) < progress then
           let st3 : Sim := { st2 with
             rng := st2.rng + 1,
             killed :=
               if O.coin st2.rng ∧ ¬ prey ∈ st2.killed then st2.killed ++ [prey]
               else st2.killed }
           update_ship_goal cfg O st3 i
         else st2
       else
         { st1 with ships := st1.ships.set i { shipAt st1.ships i with goal := ShipGoal.Wander } }
     | _ => st1)

/-- The per-ship pass of `Sim::update`: `for ship_index in 0..len`. -/
def shipsPhase (cfg : SimConfig) (O : Oracle) (st : Sim) : Sim :=
  (List.range st.ships.length).foldl (update_ship cfg O) st

/-- The reference patch applied for one removed index `k`: a `Hunt` goal
whose prey equals `k` is cleared to `Wander`; a prey beyond `k` is shifted
down by one. -/
def patchPrey (k : ℕ) (ship : Ship) : Ship :=
  match ship.goal with
  | ShipGoal.Hunt prey progress =>
    if prey = k then { ship with goal := ShipGoal.Wander }
    else if k < prey then { ship with goal := ShipGoal.Hunt (prey - 1) progress }
    else ship
  | _ => ship

/-- The deferred-removal loop of `Sim::update`: for each index drained from
the kill list, patch every remaining `Hunt.prey`, then remove the ship at
that index. -/
def processKilled (killed : List ℕ) (ships : List Ship) : List Ship :=
  killed.foldl (fun acc k => (acc.map (patchPrey k)).eraseIdx k) ships

/-- The destruction phase of `Sim::update`. -/
def killPhase (st : Sim) : Sim :=
  { st with ships := processKilled st.killed st.ships, killed := [] }

/-- `Sim::update`: orbits, trader spawning, the per-ship pass, then the
deferred removals, in the source's order. -/
def Sim.update (cfg : SimConfig) (O : Oracle) (st : Sim) : Sim :=
  killPhase (shipsPhase cfg O (spawnPhase cfg O (planetPhase O st)))

/-- `Sim::pirate_in_range`; `none` models the `panic!` taken when the ship's
goal is not `Hunt` (and the out-of-bounds indexing panics). -/
def pirate_in_range (cfg : SimConfig) (O : Oracle) (st : Sim) (pirate_index : ℕ) :
    Option Bool :=
  match st.ships.get? pirate_index with
  | none => none
  | some pirate =>
    match pirate.goal with
    | ShipGoal.Hunt prey _ =>
      (match st.ships.get? prey with
       | none => none
       | some preyShip =>
         some (decide (O.sqrtF (dist2 pirate.pos preyShip.pos) < cfg.raid_range)))
    | _ => none

/-! ## System generation (source: `Sim::new` and `Orbit::new`). -/

/-- The random streams consumed during generation (`StdRng` draws plus the
`thread_rng` draws of `Orbit::new` and `Ship::new`).  Streams are keyed by
the unique creation event (the system length or loop counter at draw time);
since every stream is universally quantified, every run of the generator
corresponds to some instance. -/
structure GenRng where
  sizeMult : ℕ → ℚ
  moonCoin : ℕ → Bool
  orbSpeedD : ℕ → ℕ
  orbCcw : ℕ → Bool
  orbAngle : ℕ → ℚ
  featCoin : ℕ → Bool
  featStation : ℕ → Bool
  pickN : ℕ → ℕ
  posR : ℕ → ℚ
  posT : ℕ → ℚ
  shipAngleD : ℕ → ℚ
  orePick : ℕ → ℕ

/-- `Orbit::new(parent_index, dist)`: speed multiplier `0.5 * gen_range(1..4)`,
random rotation direction, random starting phase in `[0, TAU)`. -/
def Orbit.new (R : GenRng) (key : ℕ) (parent_index : ℕ) (dist : ℚ) : Orbit :=
  { parent_index := parent_index, dist := dist,
    speed := (1 / 2) * ((1 + R.orbSpeedD key % 3 : ℕ) : ℚ),
    ccw := R.orbCcw key,
    angle := R.orbAngle key }

/-- `total_rad` of `Sim::new`: the combined radius of the subsystem rooted
at `i` (fuelled recursion over the moon tree). -/
def total_rad (sys : List Planet) : ℕ → ℕ → ℚ
  | 0, i => radOf sys i
  | fuel + 1, i =>
    (moonsOf sys i).foldl
      (fun acc m =>
        max acc (((planetAt sys m).orbit.map Orbit.dist).getD 0 + total_rad sys fuel m))
      (radOf sys i)

/-- `padded_total_rad` of `Sim::new`. -/
def padded_total_rad (sys : List Planet) (fuel i : ℕ) (rad : ℚ) : ℚ :=
  total_rad sys fuel i + radOf sys i + rad * 3

/-- The moon-attachment `while` loop of `Sim::new` (fuelled). -/
def moonLoop (R : GenRng) : ℕ → List Planet → ℕ → ℚ → List Planet
  | 0, sys, _, _ => sys
  | fuel + 1, sys, plIdx, plRad =>
    if total_rad sys sys.length plIdx < radOf sys plIdx * 5 ∧ R.moonCoin sys.length then
      let mult := R.sizeMult sys.length
      let moonRad := plRad * mult
      let moonIdx := sys.length
      let dist := padded_total_rad sys sys.length plIdx moonRad
      let morb := Orbit.new R moonIdx plIdx dist
      let sys1 := sys.set plIdx
        { planetAt sys plIdx with moon_indices := moonsOf sys plIdx ++ [moonIdx] }
      let sys2 := sys1 ++ [Planet.new moonRad]
      let sys3 := sys2.set moonIdx { planetAt sys2 moonIdx with orbit := some morb }
      moonLoop R fuel sys3 plIdx plRad
    else sys

/-- The planet-subsystem `loop` of `Sim::new` (fuelled): append a planet,
attach moons, then either reject the subsystem (truncate and stop) or attach
it to the sun with an orbit at the computed distance and continue. -/
def genLoop (cfg : SimConfig) (R : GenRng) : ℕ → List Planet → List Planet
  | 0, sys => sys
  | fuel + 1, sys =>
    let plIdx := sys.length
    let plRad := cfg.sun_rad * R.sizeMult sys.length
    let sys1 := sys ++ [Planet.new plRad]
    let sys2 := moonLoop R (fuel + 1) sys1 plIdx plRad
    let plSystemRad := padded_total_rad sys2 sys2.length plIdx plRad
    let sysRad := total_rad sys2 sys2.length 0
    if cfg.system_rad < sysRad + plSystemRad then sys2.take plIdx
    else
      let sys3 := sys2.set 0
        { planetAt sys2 0 with moon_indices := moonsOf sys2 0 ++ [plIdx] }
      let sys4 := sys3.set plIdx
        { planetAt sys3 plIdx with
            orbit := some (Orbit.new R plIdx 0 (sysRad + plSystemRad)) }
      genLoop cfg R fuel sys4

/-- `rand_feature`: a uniformly drawn feature kind. -/
def rand_feature (R : GenRng) (key : ℕ) : PlanetFeature :=
  if R.featStation key then PlanetFeature.Station 0 else PlanetFeature.Ore

/-- The essential-feature block of `Sim::new`: a station at index `1`, a
station at the last index, an ore feature at a random index drawn from
`2..len` — in that (overwriting) order. -/
def ensure_features (R : GenRng) (sys : List Planet) : List Planet :=
  let last := sys.length - 1
  let rand := 2 + R.pickN 0 % (sys.length - 2)
  let sys1 := sys.set 1 { planetAt sys 1 with feat := some (PlanetFeature.Station 0) }
  let sys2 := sys1.set last { planetAt sys1 last with feat := some (PlanetFeature.Station 0) }
  sys2.set rand { planetAt sys2 rand with feat := some PlanetFeature.Ore }

/-- The probabilistic feature pass of `Sim::new` (`for pl in
system.iter_mut().skip(1)`), index-recursively. -/
def featureSprinkle (R : GenRng) : List Planet → ℕ → List Planet
  | [], _ => []
  | pl :: tl, i =>
    (if i = 0 then pl
     else if R.featCoin i ∧ pl.feat = none then
       { pl with feat := some (rand_feature R i) }
     else pl) :: featureSprinkle R tl (i + 1)

/-- `rand_pos`: an evenly distributed random point in the disc of the given
radius (polar coordinates, square-root-corrected radius draw). -/
def rand_pos (O : Oracle) (R : GenRng) (key : ℕ) (rad : ℚ) : ℚ × ℚ :=
  let r := rad * O.sqrtF (R.posR key)
  let theta := R.posT key * tau
  (r * O.cosF theta, r * O.sinF theta)

/-- `Sim::new`: generation loop, the fatal `< 4` body-count check
(modelled by `none`), feature placement, then the miner and pirate fleets.
The returned `system_rad` is the true occupied radius. -/
def Sim.new (cfg : SimConfig) (O : Oracle) (R : GenRng) (fuel : ℕ) : Option Sim :=
  let sys0 := genLoop cfg R fuel [Planet.new cfg.sun_rad]
  if sys0.length < 4 then none
  else
    let sys1 := featureSprinkle R (ensure_features R sys0) 0
    let sysRad := total_rad sys1 sys1.length 0
    let miners := (List.range cfg.miner_count).map (fun k =>
      { Ship.new ShipJob.Miner cfg.ship_speed (R.shipAngleD k) with
          pos := rand_pos O R k sysRad,
          goal := ShipGoal.Visit ((chooseList (ore_indices sys1) (R.orePick k)).getD 0) })
    let pirates := (List.range cfg.pirate_count).map (fun k =>
      let ppos := rand_pos O R (cfg.miner_count + 2 * k) (sysRad * (1 / 2))
      let off := rand_pos O R (cfg.miner_count + 2 * k + 1) cfg.pirate_territory
      { Ship.new (ShipJob.Pirate ppos) cfg.ship_speed (R.shipAngleD (cfg.miner_count + k)) with
          pos := (ppos.1 + off.1, ppos.2 + off.2),
          goal := ShipGoal.Wander })
    some { system := sys1, system_rad := sysRad, ships := miners ++ pirates,
           killed := [], rng := 0 }

/-! ## Derived quantities used by the theorems. -/

/-- Number of bodies carrying a `Station` feature. -/
def countStations (sys : List Planet) : ℕ := (station_indices sys).length

def plStock (pl : Planet) : ℕ := (stockOf pl).getD 0

/-- Total stock over all stations. -/
def sumStock (sys : List Planet) : ℕ := (sys.map plStock).sum

/-- Number of traders currently flagged as carrying cargo. -/
def cargoCount (ships : List Ship) : ℕ :=
  ships.countP (fun s => decide (s.job = ShipJob.Trader true))

/-- Station stock plus in-flight cargo units (§8 economy conservation). -/
def econSum (st : Sim) : ℕ := sumStock st.system + cargoCount st.ships

/-- The condition under which a ship's goal dereferences `stock()` without
panicking: a trader's `Visit` destination is a station.  Non-traders and
non-`Visit` goals impose nothing. -/
def shipTargetOK (sys : List Planet) (sh : Ship) : Bool :=
  match sh.job, sh.goal with
  | ShipJob.Trader _, ShipGoal.Visit target => (stockOf (planetAt sys target)).isSome
  | _, _ => true

/-- Every trader's `Visit` destination is a station (the panic-freedom side
condition of the trader-arrival transition). -/
def traderTargetsOK (st : Sim) : Prop :=
  ∀ sh ∈ st.ships, shipTargetOK st.system sh = true

/-- The raid-completion test of the `Hunt` arm of `Sim::update_ship`, read
off the source's branch conditions: ship `i` hunts a prey that (after `i`'s
move) carries cargo, the prey is within raid range, and the raid duration
has elapsed.  Exactly on this condition does the tick steal the prey's
cargo (and possibly extend the kill list). -/
def raidStep (cfg : SimConfig) (O : Oracle) (st : Sim) (i : ℕ) : Bool :=
  match (shipAt st.ships i).goal with
  | ShipGoal.Hunt prey progress =>
    let preyPos := (shipAt st.ships prey).pos
    let ship1 := update_ship_pos O (shipAt st.ships i) preyPos
    (match (shipAt (st.ships.set i ship1) prey).job with
     | ShipJob.Trader cargo =>
       cargo && decide (O.sqrtF (dist2 ship1.pos preyPos) < cfg.raid_range) &&
         decide ((cfg.raid_duration : ℤ) < progress)
     | _ => false)
  | _ => false

/-- The first `n` steps of the per-ship pass of `Sim::update`. -/
def shipsUpTo (cfg : SimConfig) (O : Oracle) (st : Sim) (n : ℕ) : Sim :=
  (List.range n).foldl (update_ship cfg O) st

/-- The number of traders one tick from the given pre-tick state spawns. -/
def tickSpawned (cfg : SimConfig) (O : Oracle) (st : Sim) : ℕ :=
  ((planetPhase O st).system.enum.filterMap (spawnShipFrom cfg O)).length

/-- The per-tick side conditions of the conservation law: the kill list is
empty at tick entry, every trader's destination is a station, and no step
of the per-ship pass completes a raid. -/
def tickOK (cfg : SimConfig) (O : Oracle) (st : Sim) : Prop :=
  st.killed = [] ∧ traderTargetsOK st ∧
  ∀ k, k < (spawnPhase cfg O (planetPhase O st)).ships.length →
    raidStep cfg O (shipsUpTo cfg O (spawnPhase cfg O (planetPhase O st)) k) k = false

/-- The wrapped-angle condition on one optional orbit: the stored angle lies
strictly between `-TAU` and `TAU`. -/
def angleOKo (o : Option Orbit) : Bool :=
  match o with
  | none => true
  | some orb => decide (-tau < orb.angle ∧ orb.angle < tau)

/-- Every orbit angle of the system lies strictly between `-TAU` and
`TAU`. -/
def anglesOK (sys : List Planet) : Prop := ∀ pl ∈ sys, angleOKo pl.orbit = true

/-- The sun invariant on a body list: the body at index `0` sits at the
origin with no orbit and no feature. -/
def sunInv (sys : List Planet) : Prop :=
  (planetAt sys 0).pos = (0, 0) ∧ (planetAt sys 0).orbit = none ∧
    (planetAt sys 0).feat = none

/-- The pirate-scan candidate list (the `prey_indices` of the
`(Pirate, Scan)` arm of `update_ship_goal`). -/
def scanCandidates (cfg : SimConfig) (O : Oracle) (st : Sim) (i : ℕ) : List ℕ :=
  (List.range st.ships.length).filter (fun t =>
    match (shipAt st.ships t).job with
    | ShipJob.Trader true =>
      decide (O.sqrtF (dist2 (shipAt st.ships i).pos (shipAt st.ships t).pos) <
        cfg.pirate_territory * (1 / 2))
    | _ => false)

/-! ## Concrete instances used by counterexample and witness theorems. -/

/-- A base oracle: zero float functions and zero draws.  Instances that need
other draws override fields. -/
def O0 : Oracle :=
  { cosF := fun _ => 0, sinF := fun _ => 0, sqrtF := fun _ => 0,
    atan2F := fun _ _ => 0, coin := fun _ => false, pickD := fun _ => 0,
    rangeD := fun _ => 0, shipAngle := fun _ => 0 }

/-- A base generation-draw bundle. -/
def R0 : GenRng :=
  { sizeMult := fun _ => 1, moonCoin := fun _ => false, orbSpeedD := fun _ => 0,
    orbCcw := fun _ => false, orbAngle := fun _ => 0, featCoin := fun _ => false,
    featStation := fun _ => false, pickN := fun _ => 0, posR := fun _ => 0,
    posT := fun _ => 0, shipAngleD := fun _ => 0, orePick := fun _ => 0 }

/-- The default configuration with a large target radius and no initial
ships (so that generation traces stay small). -/
def cfgC1 : SimConfig :=
  { system_rad := 1000, sun_rad := 1, pl_moon_prob := (1 / 2), pl_feat_prob := (8 / 10),
    pl_size_lo := (1 / 10), pl_size_hi := (3 / 10), ship_speed := (5 / 1000),
    ship_acceleration := (105 / 100), ship_cost := 4, miner_count := 0,
    harvest_duration := 100, harvest_lo := -20, harvest_hi := 20,
    pirate_count := 0, pirate_territory := (4 / 10), raid_range := (2 / 10),
    raid_duration := 40, raid_lo := -20, raid_hi := 20, death_prob := (4 / 10) }

/-- Generation draws whose essential-ore index draw collides with the last
body: `gen_range(2..4)` yields `2 + 1 % 2 = 3`. -/
def RC1 : GenRng := { R0 with pickN := fun _ => 1 }

def mkShip (p : ℚ × ℚ) (job : ShipJob) (goal : ShipGoal) : Ship :=
  { pos := p, speed := 0, initial_speed := 0, angle := 0, goal := goal, job := job }

/-- Five ships: a pirate hunting ship `2`, two cargo traders (indices `1`
and `2`, both on this tick's kill list), and two wandering pirates. -/
def shipsC2 : List Ship :=
  [ mkShip (0, 0) (ShipJob.Pirate (0, 0)) (ShipGoal.Hunt 2 0),
    mkShip (1, 1) (ShipJob.Trader true) ShipGoal.Wander,
    mkShip (2, 2) (ShipJob.Trader true) ShipGoal.Wander,
    mkShip (3, 3) (ShipJob.Pirate (3, 3)) ShipGoal.Wander,
    mkShip (4, 4) (ShipJob.Pirate (4, 4)) ShipGoal.Wander ]

/-- A sun, a clockwise first-order planet and a counter-clockwise moon, all
with angle `0`. -/
def sysC3 : List Planet :=
  [ { Planet.new 1 with moon_indices := [1] },
    { Planet.new 1 with
        orbit := some { parent_index := 0, dist := 1, speed := 1, ccw := false, angle := 0 },
        moon_indices := [2] },
    { Planet.new 1 with
        orbit := some { parent_index := 1, dist := 1, speed := 1, ccw := true, angle := 0 } } ]

def simC3 : Sim :=
  { system := sysC3, system_rad := 1, ships := [], killed := [], rng := 0 }

/-- A sun plus a single station holding `5` units of stock (strictly more
than `cfgC1`'s ship cost of `4`) and no ships. -/
def simC6 : Sim :=
  { system := [Planet.new 1, { Planet.new 1 with feat := some (PlanetFeature.Station 5) }],
    system_rad := 1, ships := [], killed := [], rng := 0 }

/-- A scanning pirate at the origin and a cargo-carrying trader at distance
`2`. -/
def shipsC8 : List Ship :=
  [ mkShip (0, 0) (ShipJob.Pirate (0, 0)) ShipGoal.Scan,
    mkShip (2, 0) (ShipJob.Trader true) ShipGoal.Wander ]

def simC8 : Sim :=
  { system := [Planet.new 1], system_rad := 1, ships := shipsC8, killed := [], rng := 0 }

/-- An oracle that computes the only square root the scan of `simC8`
needs (`sqrt 4 = 2`). -/
def OC8 : Oracle := { O0 with sqrtF := fun q => if q = 4 then 2 else 0 }

/-- `cfgC1` with pirate territory radius `2`: the derived detection range is
`1`, so the trader of `simC8` (distance `2`) is out of range. -/
def cfgC8a : SimConfig := { cfgC1 with pirate_territory := 2 }

/-- `cfgC1` with pirate territory radius `6`: the derived detection range is
`3`, so the same trader is in range. -/
def cfgC8b : SimConfig := { cfgC1 with pirate_territory := 6 }

/-- The stored orbit angle of body `i`, when the body exists and has an
orbit. -/
def orbitAngleAt (st : Sim) (i : ℕ) : Option ℚ :=
  ((st.system.get? i).bind Planet.orbit).map Orbit.angle

/-- The four-body system produced by the generation trace with draws `R0`
and fuel `3` under `cfgC1` (three planets at orbital distances `6`, `12`,
`18`; stations at indices `1` and `3`, ore at index `2`). -/
def simC9 : Sim :=
  { system :=
      [ { pos := (0, 0), rad := 1, orbit := none, feat := none, moon_indices := [1, 2, 3] },
        { pos := (0, 0), rad := 1,
          orbit := some { parent_index := 0, dist := 6, speed := 1 / 2, ccw := false, angle := 0 },
          feat := some (PlanetFeature.Station 0), moon_indices := [] },
        { pos := (0, 0), rad := 1,
          orbit := some { parent_index := 0, dist := 12, speed := 1 / 2, ccw := false, angle := 0 },
          feat := some PlanetFeature.Ore, moon_indices := [] },
        { pos := (0, 0), rad := 1,
          orbit := some { parent_index := 0, dist := 18, speed := 1 / 2, ccw := false, angle := 0 },
          feat := some (PlanetFeature.Station 0), moon_indices := [] } ],
    system_rad := 19, ships := [], killed := [], rng := 0 }

/-- A system with two stations (index `1` holding `2` units, index `2`
holding none) and one empty-handed trader arriving at station `1`. -/
def simC4 : Sim :=
  { system :=
      [ Planet.new 1,
        { Planet.new 1 with feat := some (PlanetFeature.Station 2) },
        { Planet.new 1 with feat := some (PlanetFeature.Station 0) } ],
    system_rad := 1,
    ships := [mkShip (0, 0) (ShipJob.Trader false) (ShipGoal.Visit 1)],
    killed := [], rng := 0 }

/-- A miner arriving at the stocked station of the `simC4` system. -/
def simC6m : Sim :=
  { simC4 with ships := [mkShip (0, 0) ShipJob.Miner (ShipGoal.Visit 1)] }

/-- A scanning pirate at the origin and a cargo trader at distance `5`
(position `(3, 4)`). -/
def simC8w : Sim :=
  { system := [Planet.new 1], system_rad := 1,
    ships := [ mkShip (0, 0) (ShipJob.Pirate (0, 0)) ShipGoal.Scan,
               mkShip (3, 4) (ShipJob.Trader true) ShipGoal.Wander ],
    killed := [], rng := 0 }

/-- An oracle computing the only nontrivial square root the `simC8w` scan
needs (`sqrt 25 = 5`; every other argument that occurs is `0`). -/
def OC8w : Oracle := { O0 with sqrtF := fun q => if q = 25 then 5 else 0 }

/-- `cfgC1` with pirate territory radius `12`: the derived detection range
is `6`, so the trader of `simC8w` (distance `5`) is detected. -/
def cfgC8w : SimConfig := { cfgC1 with pirate_territory := 12 }

/-- The pirate of `simC8w` already hunting the trader at distance `5`. -/
def simC10 : Sim :=
  { system := [Planet.new 1], system_rad := 1,
    ships := [ mkShip (0, 0) (ShipJob.Pirate (0, 0)) (ShipGoal.Hunt 1 0),
               mkShip (3, 4) (ShipJob.Trader true) ShipGoal.Wander ],
    killed := [], rng := 0 }

/-- `cfgC1` with raid range `6`, putting the prey of `simC10` in range. -/
def cfgC10 : SimConfig := { cfgC1 with raid_range := 6 }

/-! ## Theorems -/

theorem qtrunc_le_of_nonneg {q : ℚ} (h : 0 ≤ q) : (qtrunc q : ℚ) ≤ q := by
  simp only [qtrunc, if_pos h]
  exact_mod_cast Int.floor_le q

theorem lt_qtrunc_add_one_of_nonneg {q : ℚ} (h : 0 ≤ q) : q < (qtrunc q : ℚ) + 1 := by
  simp only [qtrunc, if_pos h]
  exact_mod_cast Int.lt_floor_add_one q

theorem le_qtrunc_of_neg {q : ℚ} (h : ¬ 0 ≤ q) : q ≤ (qtrunc q : ℚ) := by
  simp only [qtrunc, if_neg h]
  exact_mod_cast Int.le_ceil q

theorem qtrunc_lt_add_one_of_neg {q : ℚ} (h : ¬ 0 ≤ q) : (qtrunc q : ℚ) < q + 1 := by
  simp only [qtrunc, if_neg h]
  have := Int.ceil_lt_add_one q
  exact_mod_cast this

/-- The truncated remainder by a positive modulus lies strictly between
`-y` and `y`. -/
theorem rustRem_bounds (x : ℚ) {y : ℚ} (hy : 0 < y) :
    -y < rustRem x y ∧ rustRem x y < y := by
  unfold rustRem
  by_cases h : 0 ≤ x / y
  · have h1 : (qtrunc (x / y) : ℚ) ≤ x / y := qtrunc_le_of_nonneg h
    have h2 : x / y < (qtrunc (x / y) : ℚ) + 1 := lt_qtrunc_add_one_of_nonneg h
    have ha : (qtrunc (x / y) : ℚ) * y ≤ x := (le_div_iff₀ hy).mp h1
    have hb : x < ((qtrunc (x / y) : ℚ) + 1) * y := (div_lt_iff₀ hy).mp h2
    have hc : ((qtrunc (x / y) : ℚ) + 1) * y = (qtrunc (x / y) : ℚ) * y + y := by ring
    have hd : y * (qtrunc (x / y) : ℚ) = (qtrunc (x / y) : ℚ) * y := by ring
    constructor <;> [linarith; linarith]
  · have h1 : x / y ≤ (qtrunc (x / y) : ℚ) := le_qtrunc_of_neg h
    have h2 : (qtrunc (x / y) : ℚ) < x / y + 1 := qtrunc_lt_add_one_of_neg h
    have ha : x ≤ (qtrunc (x / y) : ℚ) * y := (div_le_iff₀ hy).mp h1
    have h2' : (qtrunc (x / y) : ℚ) - 1 < x / y := by linarith
    have hb : ((qtrunc (x / y) : ℚ) - 1) * y < x := (lt_div_iff₀ hy).mp h2'
    have hc : ((qtrunc (x / y) : ℚ) - 1) * y = (qtrunc (x / y) : ℚ) * y - y := by ring
    have hd : y * (qtrunc (x / y) : ℚ) = (qtrunc (x / y) : ℚ) * y := by ring
    constructor <;> [linarith; linarith]

/-- For a nonnegative dividend, the truncated remainder stays in `[0, y)`. -/
theorem rustRem_nonneg_of_nonneg {x y : ℚ} (hy : 0 < y) (hx : 0 ≤ x) :
    0 ≤ rustRem x y ∧ rustRem x y < y := by
  have h : 0 ≤ x / y := div_nonneg hx hy.le
  unfold rustRem
  have h1 : (qtrunc (x / y) : ℚ) ≤ x / y := qtrunc_le_of_nonneg h
  have h2 : x / y < (qtrunc (x / y) : ℚ) + 1 := lt_qtrunc_add_one_of_nonneg h
  have ha : (qtrunc (x / y) : ℚ) * y ≤ x := (le_div_iff₀ hy).mp h1
  have hb : x < ((qtrunc (x / y) : ℚ) + 1) * y := (div_lt_iff₀ hy).mp h2
  have hc : ((qtrunc (x / y) : ℚ) + 1) * y = (qtrunc (x / y) : ℚ) * y + y := by ring
  have hd : y * (qtrunc (x / y) : ℚ) = (qtrunc (x / y) : ℚ) * y := by ring
  constructor <;> [linarith; linarith]

theorem tau_pos : (0 : ℚ) < tau := by norm_num [tau]

/-- If the discriminant is positive, the quadratic's leading coefficient is
nonzero: a zero-length movement step forces `b = 0` and a zero
discriminant. -/
theorem arrA_ne_zero_of_disc_pos {s o p : ℝ × ℝ} {r : ℝ}
    (hd : 0 < arrDisc s o p r) : arrA s o p ≠ 0 := by
  intro h0
  have hxx : (newX s p - oldX o p) ^ 2 = 0 := by
    have := sq_nonneg (newX s p - oldX o p)
    have := sq_nonneg (newY s p - oldY o p)
    unfold arrA at h0
    nlinarith
  have hyy : (newY s p - oldY o p) ^ 2 = 0 := by
    have := sq_nonneg (newX s p - oldX o p)
    have := sq_nonneg (newY s p - oldY o p)
    unfold arrA at h0
    nlinarith
  have hx : newX s p - oldX o p = 0 := by
    exact pow_eq_zero_iff (two_ne_zero) |>.mp hxx
  have hy : newY s p - oldY o p = 0 := by
    exact pow_eq_zero_iff (two_ne_zero) |>.mp hyy
  have hb : arrB s o p = 0 := by
    unfold arrB
    rw [hx, hy]
    ring
  have : arrDisc s o p r = 0 := by
    unfold arrDisc
    rw [hb, h0]
    ring
  linarith

/-- C5: the arrival test translates both positions into the target's frame,
forms the quadratic obtained by substituting `old + t·(new − old)` into
`x² + y² = r²`, reports no arrival when the discriminant is non-positive,
and otherwise reports arrival exactly when one of the two roots lies in the
open interval `(0, 1)` — equivalently, exactly when the quadratic has a root
in `(0, 1)`. -/
theorem claim_C5_arrival_test (s o p : ℝ × ℝ) (r : ℝ) :
    (∀ t : ℝ,
        arrA s o p * (t * t) + arrB s o p * t + arrC o p r =
          (oldX o p + t * (newX s p - oldX o p)) ^ 2 +
            (oldY o p + t * (newY s p - oldY o p)) ^ 2 - r ^ 2) ∧
    (arrDisc s o p r ≤ 0 → ¬ arrived s o p r) ∧
    (0 < arrDisc s o p r →
      (arrived s o p r ↔
        ∃ t : ℝ, 0 < t ∧ t < 1 ∧
          arrA s o p * (t * t) + arrB s o p * t + arrC o p r = 0)) := by
  refine ⟨?_, ?_, ?_⟩
  · intro t
    unfold arrA arrB arrC
    ring
  · intro hd
    unfold arrived
    rw [if_pos hd]
    exact id
  · intro hd
    have ha := arrA_ne_zero_of_disc_pos hd
    have hs : discrim (arrA s o p) (arrB s o p) (arrC o p r) =
        Real.sqrt (arrDisc s o p r) * Real.sqrt (arrDisc s o p r) := by
      rw [Real.mul_self_sqrt hd.le]
      rfl
    have ht1 : arrT1 s o p r =
        (-(arrB s o p) + Real.sqrt (arrDisc s o p r)) / (2 * arrA s o p) := by
      unfold arrT1
      congr 1
      ring
    have ht2 : arrT2 s o p r =
        (-(arrB s o p) - Real.sqrt (arrDisc s o p r)) / (2 * arrA s o p) := by
      unfold arrT2
      congr 1
      ring
    unfold arrived
    rw [if_neg (not_le.mpr hd)]
    constructor
    · rintro (⟨h1, h2⟩ | ⟨h1, h2⟩)
      · exact ⟨arrT1 s o p r, h1, h2, by
          rw [quadratic_eq_zero_iff ha hs]
          exact Or.inl ht1⟩
      · exact ⟨arrT2 s o p r, h1, h2, by
          rw [quadratic_eq_zero_iff ha hs]
          exact Or.inr ht2⟩
    · rintro ⟨t, h1, h2, h3⟩
      rcases (quadratic_eq_zero_iff ha hs t).mp h3 with h | h
      · have heq : t = arrT1 s o p r := by rw [ht1, h]
        exact Or.inl ⟨heq ▸ h1, heq ▸ h2⟩
      · have heq : t = arrT2 s o p r := by rw [ht2, h]
        exact Or.inr ⟨heq ▸ h1, heq ▸ h2⟩

/-- Witness for C5: a segment from `(-2,0)` to `(2,0)` against the unit disc
at the origin has positive discriminant, and the theorem instantiated there
yields arrival via the root `t = 3/4`. -/
theorem claim_C5_arrival_test_witness : arrived (2, 0) (-2, 0) (0, 0) 1 := by
  have h := (claim_C5_arrival_test (2, 0) (-2, 0) (0, 0) 1).2.2
  have hd : (0 : ℝ) < arrDisc (2, 0) (-2, 0) (0, 0) 1 := by
    unfold arrDisc arrA arrB arrC oldX oldY newX newY
    norm_num
  refine (h hd).mpr ⟨3 / 4, by norm_num, by norm_num, ?_⟩
  unfold arrA arrB arrC oldX oldY newX newY
  norm_num


/-! ### List helpers -/

theorem map_set_eq {α β : Type} (f : α → β) (d : α) :
    ∀ (l : List α) (i : ℕ) (x : α), f x = f (l.getD i d) →
      (l.set i x).map f = l.map f
  | [], _, _, _ => rfl
  | a :: tl, 0, x, h => by
    simp only [List.getD_cons_zero] at h
    simp [List.set, h]
  | a :: tl, i + 1, x, h => by
    simp only [List.getD_cons_succ] at h
    simp only [List.set, List.map_cons]
    rw [map_set_eq f d tl i x h]

theorem foldl_preserve {α β : Type} {P : α → Prop} {f : α → β → α}
    (hf : ∀ a b, P a → P (f a b)) :
    ∀ (l : List β) (a : α), P a → P (l.foldl f a)
  | [], _, h => h
  | b :: tl, a, h => foldl_preserve hf tl (f a b) (hf a b h)

theorem planetAt_out_of_range {sys : List Planet} {t : ℕ} (h : sys.length ≤ t) :
    planetAt sys t = junkPlanet := by
  unfold planetAt
  unfold List.getD
  rw [List.get?_eq_none.mpr h]
  rfl

theorem get?_planetAt {sys : List Planet} {t : ℕ} (h : t < sys.length) :
    sys.get? t = some (planetAt sys t) := by
  unfold planetAt
  unfold List.getD
  cases hq : sys.get? t with
  | none => exact absurd (List.get?_eq_none.mp hq) (Nat.not_le.mpr h)
  | some a => rfl

theorem shipAt_out_of_range {ships : List Ship} {t : ℕ} (h : ships.length ≤ t) :
    shipAt ships t = junkShip := by
  unfold shipAt
  unfold List.getD
  rw [List.get?_eq_none.mpr h]
  rfl

/-! ### Preservation of the orbit projection by the non-orbital
operations -/

theorem setStock_orbit (pl : Planet) (s : ℕ) : (setStock pl s).orbit = pl.orbit := rfl

theorem incStock_orbits (sys : List Planet) (t : ℕ) :
    (incStock sys t).map Planet.orbit = sys.map Planet.orbit := by
  unfold incStock
  cases stockOf (planetAt sys t) with
  | none => rfl
  | some s => exact map_set_eq Planet.orbit junkPlanet sys t _ rfl

theorem decStock_orbits (sys : List Planet) (t : ℕ) :
    (decStock sys t).map Planet.orbit = sys.map Planet.orbit := by
  unfold decStock
  cases stockOf (planetAt sys t) with
  | none => rfl
  | some s => exact map_set_eq Planet.orbit junkPlanet sys t _ rfl

theorem spawnStock_orbit (cfg : SimConfig) (pl : Planet) :
    (spawnStock cfg pl).orbit = pl.orbit := by
  unfold spawnStock
  cases h : pl.feat with
  | none => rfl
  | some f =>
    cases f with
    | Station s =>
      by_cases hc : cfg.ship_cost < s
      · simp [hc, setStock_orbit]
      · simp [hc]
    | Ore => rfl

theorem update_ship_goal_orbits (cfg : SimConfig) (O : Oracle) (st : Sim) (i : ℕ) :
    (update_ship_goal cfg O st i).system.map Planet.orbit = st.system.map Planet.orbit := by
  unfold update_ship_goal
  split <;> (try dsimp only) <;> (repeat' split) <;>
    simp [incStock_orbits, decStock_orbits]

theorem update_ship_orbits (cfg : SimConfig) (O : Oracle) (st : Sim) (i : ℕ) :
    (update_ship cfg O st i).system.map Planet.orbit = st.system.map Planet.orbit := by
  unfold update_ship
  split <;> (try dsimp only) <;> (repeat' split) <;>
    simp [update_ship_goal_orbits, incStock_orbits, decStock_orbits]

theorem shipsPhase_orbits (cfg : SimConfig) (O : Oracle) (st : Sim) :
    (shipsPhase cfg O st).system.map Planet.orbit = st.system.map Planet.orbit := by
  unfold shipsPhase
  refine foldl_preserve
    (P := fun s => s.system.map Planet.orbit = st.system.map Planet.orbit)
    (f := update_ship cfg O) ?_ _ st rfl
  intro s i h
  show (update_ship cfg O s i).system.map Planet.orbit = st.system.map Planet.orbit
  rw [update_ship_orbits]
  exact h

theorem spawnPhase_orbits (cfg : SimConfig) (O : Oracle) (st : Sim) :
    (spawnPhase cfg O st).system.map Planet.orbit = st.system.map Planet.orbit := by
  show (st.system.map (spawnStock cfg)).map Planet.orbit = st.system.map Planet.orbit
  rw [List.map_map]
  exact List.map_congr_left (fun pl _ => spawnStock_orbit cfg pl)

/-- Orbits (and in particular stored angles) after a full `Sim::update` are
exactly those produced by the orbit-integration phase: the spawning, ship
and removal phases never touch them. -/
theorem sim_update_orbits (cfg : SimConfig) (O : Oracle) (st : Sim) :
    (Sim.update cfg O st).system.map Planet.orbit =
      (update_planet_pos O st.system_rad st.system.length st.system 0).map Planet.orbit := by
  show (shipsPhase cfg O (spawnPhase cfg O (planetPhase O st))).system.map Planet.orbit = _
  rw [shipsPhase_orbits, spawnPhase_orbits]
  rfl

/-- C1 (evaluation at the failing input): a complete `Sim::new` run that
returns normally — four generated bodies, the `gen_range(2..4)` draw landing
on the last index, every feature coin false — produces exactly one station:
the `Ore` assignment overwrites the station that had just been placed at the
last index. -/
theorem claim_C1_feature_overwrite :
    (Sim.new cfgC1 O0 RC1 3).map (fun st => countStations st.system) = some 1 ∧
    (Sim.new cfgC1 O0 RC1 3).map (fun st => st.system.map Planet.feat) =
      some [none, some (PlanetFeature.Station 0), none, some PlanetFeature.Ore] := by
  constructor
  · with_unfolding_all decide
  · with_unfolding_all decide

/-- C2 (evaluation at the failing input): processing the kill list `[1, 2]`
on five ships leaves a remaining ship whose `Hunt.prey` equals `1` — an
index contained in the kill list — because the loop removes by stale
indices: the trader at original index `2` (on the kill list) survives at
index `1`, and the pirate at original index `3` (not on the list) is
removed instead. -/
theorem claim_C2_stale_kill_indices :
    processKilled [1, 2] shipsC2 =
      [ mkShip (0, 0) (ShipJob.Pirate (0, 0)) (ShipGoal.Hunt 1 0),
        mkShip (2, 2) (ShipJob.Trader true) ShipGoal.Wander,
        mkShip (4, 4) (ShipJob.Pirate (4, 4)) ShipGoal.Wander ] := by
  with_unfolding_all decide

/-- Two states with the same orbit projection report the same stored
angles. -/
theorem orbitAngleAt_congr {st st' : Sim}
    (h : st.system.map Planet.orbit = st'.system.map Planet.orbit) (i : ℕ) :
    orbitAngleAt st i = orbitAngleAt st' i := by
  unfold orbitAngleAt
  have key : ∀ (l : List Planet) (j : ℕ),
      (l.get? j).bind Planet.orbit = ((l.map Planet.orbit).get? j).join := by
    intro l j
    rw [List.get?_map]
    cases l.get? j <;> rfl
  rw [key, key, h]

set_option maxRecDepth 40000 in
/-- C3 (counterexample): after one `Sim::update` of a system holding a
counter-clockwise moon at angle `0`, the stored angle is `-(174 / 10000)`,
which does not lie in `[0, 2π)`: Rust's `%` keeps the dividend's sign; the
first conjunct states that the full update's orbits are those of the
orbit-integration walk. -/
theorem claim_C3_counterexample :
    (Sim.update cfgC1 O0 simC3).system.map Planet.orbit =
      (update_planet_pos O0 1 3 sysC3 0).map Planet.orbit ∧
    ((((update_planet_pos O0 1 3 sysC3 0).get? 2).bind Planet.orbit).map
      Orbit.angle).map Rat.num = some (-87) ∧
    ((((update_planet_pos O0 1 3 sysC3 0).get? 2).bind Planet.orbit).map
      Orbit.angle).any (fun a => decide (a < 0)) = true := by
  refine ⟨sim_update_orbits cfgC1 O0 simC3, ?_, ?_⟩ <;> with_unfolding_all decide

/-! ### The wrapped-angle invariant (C3, amended) -/

theorem anglesOK_nil : anglesOK [] := by
  intro pl hpl
  simp at hpl

theorem anglesOK_of_orbits_eq {sys sys' : List Planet}
    (h : sys'.map Planet.orbit = sys.map Planet.orbit) (ha : anglesOK sys) :
    anglesOK sys' := by
  intro pl hpl
  have hm : pl.orbit ∈ sys'.map Planet.orbit := List.mem_map_of_mem _ hpl
  rw [h] at hm
  rcases List.mem_map.mp hm with ⟨pl2, hm2, he⟩
  rw [← he]
  exact ha pl2 hm2

theorem angleOK_planetAt {sys : List Planet} (h : anglesOK sys) (t : ℕ) :
    angleOKo (planetAt sys t).orbit = true := by
  by_cases ht : t < sys.length
  · exact h _ (List.get?_mem (get?_planetAt ht))
  · rw [planetAt_out_of_range (Nat.le_of_not_lt ht)]
    rfl

/-- Setting an entry to a planet whose orbit satisfies the angle condition
preserves the wrapped-angle invariant. -/
theorem anglesOK_set {sys : List Planet} {t : ℕ} {pl' : Planet}
    (h : anglesOK sys) (ho : angleOKo pl'.orbit = true) :
    anglesOK (sys.set t pl') := by
  intro pl hpl
  rcases List.mem_or_eq_of_mem_set hpl with hm | he
  · exact h pl hm
  · rw [he]
    exact ho

/-- Setting an entry to a planet with the same (or untouched) orbit
preserves the wrapped-angle invariant. -/
theorem anglesOK_set_same_orbit {sys : List Planet} {t : ℕ} {pl' : Planet}
    (h : anglesOK sys) (ho : pl'.orbit = (planetAt sys t).orbit) :
    anglesOK (sys.set t pl') :=
  anglesOK_set h (by rw [ho]; exact angleOK_planetAt h t)

theorem anglesOK_append {l1 l2 : List Planet} (h1 : anglesOK l1) (h2 : anglesOK l2) :
    anglesOK (l1 ++ l2) := by
  intro pl hpl
  rcases List.mem_append.mp hpl with hm | hm
  · exact h1 pl hm
  · exact h2 pl hm

theorem anglesOK_singleton_new (r : ℚ) : anglesOK [Planet.new r] := by
  intro pl hpl
  rcases List.mem_singleton.mp hpl with rfl
  rfl

/-- A freshly drawn orbit whose starting phase comes from `gen_range(0..TAU)`
satisfies the invariant. -/
theorem angleOKo_orbit_new {R : GenRng}
    (hR : ∀ n, 0 ≤ R.orbAngle n ∧ R.orbAngle n < tau) (key p : ℕ) (d : ℚ) :
    angleOKo (some (Orbit.new R key p d)) = true := by
  simp only [angleOKo, decide_eq_true_eq]
  refine ⟨lt_of_lt_of_le (neg_neg_of_pos tau_pos) (hR key).1, (hR key).2⟩

theorem anglesOK_update_planet_body (O : Oracle) (r : ℚ) (sys : List Planet) (i : ℕ)
    (h : anglesOK sys) : anglesOK (update_planet_body O r sys i) := by
  unfold update_planet_body
  split
  · exact h
  · intro pl hpl
    dsimp only at hpl
    rcases List.mem_or_eq_of_mem_set hpl with hm | he
    · exact h pl hm
    · rw [he]
      show angleOKo (some _) = true
      simp only [angleOKo, decide_eq_true_eq]
      exact ⟨(rustRem_bounds _ tau_pos).1, (rustRem_bounds _ tau_pos).2⟩

theorem anglesOK_update_planet_pos (O : Oracle) (r : ℚ) :
    ∀ (fuel : ℕ) (sys : List Planet) (i : ℕ), anglesOK sys →
      anglesOK (update_planet_pos O r fuel sys i)
  | 0, _, _, h => h
  | fuel + 1, sys, i, h => by
    show anglesOK ((moonsOf _ i).foldl _ _)
    exact foldl_preserve (P := anglesOK)
      (f := fun s m => update_planet_pos O r fuel s m)
      (fun s m hs => anglesOK_update_planet_pos O r fuel s m hs) _ _
      (anglesOK_update_planet_body O r sys i h)

theorem anglesOK_sim_update (cfg : SimConfig) (O : Oracle) (st : Sim)
    (h : anglesOK st.system) : anglesOK (Sim.update cfg O st).system :=
  anglesOK_of_orbits_eq (sim_update_orbits cfg O st)
    (anglesOK_update_planet_pos O st.system_rad st.system.length st.system 0 h)

theorem anglesOK_moonLoop {R : GenRng}
    (hR : ∀ n, 0 ≤ R.orbAngle n ∧ R.orbAngle n < tau) :
    ∀ (fuel : ℕ) (sys : List Planet) (plIdx : ℕ) (plRad : ℚ), anglesOK sys →
      anglesOK (moonLoop R fuel sys plIdx plRad)
  | 0, _, _, _, h => h
  | fuel + 1, sys, plIdx, plRad, h => by
    unfold moonLoop
    split
    · apply anglesOK_moonLoop hR fuel
      apply anglesOK_set
      · apply anglesOK_append
        · exact anglesOK_set_same_orbit h rfl
        · intro pl hpl
          rcases List.mem_singleton.mp hpl with rfl
          rfl
      · exact angleOKo_orbit_new hR _ _ _
    · exact h

theorem anglesOK_genLoop (cfg : SimConfig) {R : GenRng}
    (hR : ∀ n, 0 ≤ R.orbAngle n ∧ R.orbAngle n < tau) :
    ∀ (fuel : ℕ) (sys : List Planet), anglesOK sys →
      anglesOK (genLoop cfg R fuel sys)
  | 0, _, h => h
  | fuel + 1, sys, h => by
    unfold genLoop
    dsimp only
    have h2 : anglesOK (moonLoop R (fuel + 1)
        (sys ++ [Planet.new (cfg.sun_rad * R.sizeMult sys.length)]) sys.length
        (cfg.sun_rad * R.sizeMult sys.length)) :=
      anglesOK_moonLoop hR _ _ _ _
        (anglesOK_append h (anglesOK_singleton_new _))
    split
    · intro pl hpl
      exact h2 pl (List.mem_of_mem_take hpl)
    · apply anglesOK_genLoop cfg hR fuel
      apply anglesOK_set
      · exact anglesOK_set_same_orbit h2 rfl
      · exact angleOKo_orbit_new hR _ _ _

theorem anglesOK_ensure_features {R : GenRng} {sys : List Planet}
    (h : anglesOK sys) : anglesOK (ensure_features R sys) := by
  unfold ensure_features
  exact anglesOK_set_same_orbit (anglesOK_set_same_orbit (anglesOK_set_same_orbit h rfl) rfl) rfl

theorem anglesOK_featureSprinkle (R : GenRng) :
    ∀ (sys : List Planet) (i : ℕ), anglesOK sys →
      anglesOK (featureSprinkle R sys i)
  | [], _, _ => anglesOK_nil
  | pl :: tl, i, h => by
    intro q hq
    unfold featureSprinkle at hq
    rcases List.mem_cons.mp hq with he | hm
    · have hq1 : q.orbit = pl.orbit := by
        rw [he]
        split
        · rfl
        · split <;> rfl
      rw [hq1]
      exact h pl (List.mem_cons_self pl tl)
    · exact anglesOK_featureSprinkle R tl (i + 1)
        (fun p hp => h p (List.mem_cons_of_mem _ hp)) q hm

/-- C3 (amended claim): every orbit's stored angle stays strictly between
`-2π` and `2π` — generation draws the starting phase in `[0, 2π)`, and every
subsequent `Sim::update` stores a `%= TAU` result, which lies in
`(-2π, 2π)`; this holds after arbitrarily many consecutive ticks, for both
rotation directions. -/
theorem claim_C3_angle_range :
    (∀ (cfg : SimConfig) (O : Oracle) (R : GenRng) (fuel : ℕ) (st : Sim),
      (∀ n, 0 ≤ R.orbAngle n ∧ R.orbAngle n < tau) →
      Sim.new cfg O R fuel = some st → anglesOK st.system) ∧
    (∀ (cfg : SimConfig) (O : Oracle) (st : Sim), anglesOK st.system →
      ∀ k, anglesOK (((Sim.update cfg O)^[k]) st).system) := by
  constructor
  · intro cfg O R fuel st hR hnew
    unfold Sim.new at hnew
    dsimp only at hnew
    split at hnew
    · exact absurd hnew (by simp)
    · have hst : st.system = featureSprinkle R
          (ensure_features R (genLoop cfg R fuel [Planet.new cfg.sun_rad])) 0 := by
        cases hnew
        rfl
      rw [hst]
      exact anglesOK_featureSprinkle R _ 0
        (anglesOK_ensure_features
          (anglesOK_genLoop cfg hR fuel _ (anglesOK_singleton_new _)))
  · intro cfg O st h k
    induction k with
    | zero => exact h
    | succ n ih =>
      rw [Function.iterate_succ_apply']
      exact anglesOK_sim_update cfg O _ ih

/-- Witness for C3 (amended): the concrete three-body system `simC3` has all
angles in range, and so does its state after one tick. -/
theorem claim_C3_angle_range_witness :
    anglesOK simC3.system ∧ anglesOK (((Sim.update cfgC1 O0)^[1]) simC3).system :=
  ⟨by unfold anglesOK; with_unfolding_all decide,
   claim_C3_angle_range.2 cfgC1 O0 simC3 (by unfold anglesOK; with_unfolding_all decide) 1⟩

/-! ### The sun invariant (C9) -/

theorem planetAt_set_ne {sys : List Planet} {t : ℕ} (x : Planet) {j : ℕ} (h : t ≠ j) :
    planetAt (sys.set t x) j = planetAt sys j := by
  unfold planetAt
  unfold List.getD
  rw [List.get?_set_ne x sys h]

theorem planetAt_set_self {sys : List Planet} {t : ℕ} (x : Planet) (h : t < sys.length) :
    planetAt (sys.set t x) t = x := by
  unfold planetAt
  unfold List.getD
  rw [List.get?_eq_getElem?, List.getElem?_set_self h]
  rfl

theorem sunInv_set_ne {sys : List Planet} {t : ℕ} {x : Planet}
    (h : sunInv sys) (ht : t ≠ 0) : sunInv (sys.set t x) := by
  unfold sunInv at h ⊢
  rw [planetAt_set_ne x ht]
  exact h

theorem sunInv_set_zero_moons {sys : List Planet} (h : sunInv sys) (m : List ℕ) :
    sunInv (sys.set 0 { planetAt sys 0 with moon_indices := m }) := by
  by_cases hl : 0 < sys.length
  · unfold sunInv at h ⊢
    rw [planetAt_set_self _ hl]
    exact h
  · rw [List.set_eq_of_length_le (Nat.le_of_not_lt hl)]
    exact h

theorem sunInv_append_single {sys : List Planet} (h : sunInv sys) (r : ℚ) :
    sunInv (sys ++ [Planet.new r]) := by
  cases sys with
  | nil => exact ⟨rfl, rfl, rfl⟩
  | cons a tl => exact h

theorem sunInv_take {sys : List Planet} (h : sunInv sys) {n : ℕ} (hn : 0 < n) :
    sunInv (sys.take n) := by
  unfold sunInv at h ⊢
  unfold planetAt at h ⊢
  unfold List.getD at h ⊢
  rw [List.get?_take hn]
  exact h

theorem sunInv_incStock {sys : List Planet} (h : sunInv sys) (t : ℕ) :
    sunInv (incStock sys t) := by
  unfold incStock
  cases hs : stockOf (planetAt sys t) with
  | none => exact h
  | some s =>
    rcases eq_or_ne t 0 with rfl | ht
    · exfalso
      unfold stockOf at hs
      rw [h.2.2] at hs
      simp at hs
    · exact sunInv_set_ne h ht

theorem sunInv_decStock {sys : List Planet} (h : sunInv sys) (t : ℕ) :
    sunInv (decStock sys t) := by
  unfold decStock
  cases hs : stockOf (planetAt sys t) with
  | none => exact h
  | some s =>
    rcases eq_or_ne t 0 with rfl | ht
    · exfalso
      unfold stockOf at hs
      rw [h.2.2] at hs
      simp at hs
    · exact sunInv_set_ne h ht

theorem sunInv_update_ship_goal (cfg : SimConfig) (O : Oracle) (st : Sim) (i : ℕ)
    (h : sunInv st.system) : sunInv (update_ship_goal cfg O st i).system := by
  unfold update_ship_goal
  split <;> (try dsimp only) <;> (repeat' split) <;> (try dsimp only) <;>
    first
      | exact h
      | exact sunInv_incStock h _
      | exact sunInv_decStock h _
      | exact sunInv_decStock (sunInv_incStock h _) _

theorem sunInv_update_ship (cfg : SimConfig) (O : Oracle) (st : Sim) (i : ℕ)
    (h : sunInv st.system) : sunInv (update_ship cfg O st i).system := by
  unfold update_ship
  split <;> (try dsimp only) <;> (repeat' split) <;> (try dsimp only) <;>
    first
      | exact h
      | exact sunInv_update_ship_goal cfg O _ i h

theorem sunInv_update_planet_body (O : Oracle) (r : ℚ) (sys : List Planet) (i : ℕ)
    (h : sunInv sys) : sunInv (update_planet_body O r sys i) := by
  unfold update_planet_body
  split
  · exact h
  · rename_i orb horb
    rcases eq_or_ne i 0 with rfl | hi
    · rw [h.2.1] at horb
      exact absurd horb (by simp)
    · exact sunInv_set_ne h hi

theorem sunInv_update_planet_pos (O : Oracle) (r : ℚ) :
    ∀ (fuel : ℕ) (sys : List Planet) (i : ℕ), sunInv sys →
      sunInv (update_planet_pos O r fuel sys i)
  | 0, _, _, h => h
  | fuel + 1, sys, i, h => by
    show sunInv ((moonsOf _ i).foldl _ _)
    exact foldl_preserve (P := sunInv)
      (f := fun s m => update_planet_pos O r fuel s m)
      (fun s m hs => sunInv_update_planet_pos O r fuel s m hs) _ _
      (sunInv_update_planet_body O r sys i h)

theorem sunInv_spawnPhase (cfg : SimConfig) (O : Oracle) (st : Sim)
    (h : sunInv st.system) : sunInv (spawnPhase cfg O st).system := by
  show sunInv (st.system.map (spawnStock cfg))
  cases hs : st.system with
  | nil => exact ⟨rfl, rfl, rfl⟩
  | cons a tl =>
    rw [hs] at h
    have ha : a.feat = none := h.2.2
    have hsp : spawnStock cfg a = a := by
      unfold spawnStock
      rw [ha]
    show sunInv (spawnStock cfg a :: tl.map (spawnStock cfg))
    unfold sunInv at h ⊢
    rw [show planetAt (spawnStock cfg a :: tl.map (spawnStock cfg)) 0 = spawnStock cfg a from rfl,
      hsp]
    exact h

theorem sunInv_sim_update (cfg : SimConfig) (O : Oracle) (st : Sim)
    (h : sunInv st.system) : sunInv (Sim.update cfg O st).system := by
  show sunInv (shipsPhase cfg O (spawnPhase cfg O (planetPhase O st))).system
  have h1 : sunInv (planetPhase O st).system :=
    sunInv_update_planet_pos O st.system_rad st.system.length st.system 0 h
  have h2 : sunInv (spawnPhase cfg O (planetPhase O st)).system :=
    sunInv_spawnPhase cfg O _ h1
  unfold shipsPhase
  exact foldl_preserve (P := fun s => sunInv s.system)
    (f := update_ship cfg O)
    (fun s i hs => sunInv_update_ship cfg O s i hs) _ _ h2

theorem moonLoop_length_le {R : GenRng} :
    ∀ (fuel : ℕ) (sys : List Planet) (plIdx : ℕ) (plRad : ℚ),
      sys.length ≤ (moonLoop R fuel sys plIdx plRad).length
  | 0, _, _, _ => le_refl _
  | fuel + 1, sys, plIdx, plRad => by
    unfold moonLoop
    split
    · refine le_trans ?_ (moonLoop_length_le fuel _ plIdx plRad)
      simp
    · exact le_refl _

theorem sunInv_moonLoop {R : GenRng} :
    ∀ (fuel : ℕ) (sys : List Planet) (plIdx : ℕ) (plRad : ℚ), sunInv sys →
      plIdx ≠ 0 → 1 ≤ sys.length → sunInv (moonLoop R fuel sys plIdx plRad)
  | 0, _, _, _, h, _, _ => h
  | fuel + 1, sys, plIdx, plRad, h, hp, hl => by
    unfold moonLoop
    split
    · apply sunInv_moonLoop fuel _ plIdx plRad ?_ hp ?_
      · apply sunInv_set_ne
        · exact sunInv_append_single (sunInv_set_ne h hp) _
        · have : 1 ≤ (sys.set plIdx
              { planetAt sys plIdx with
                  moon_indices := moonsOf sys plIdx ++ [sys.length] }).length := by
            rw [List.length_set]
            exact hl
          omega
      · simp
    · exact h

theorem sunInv_genLoop (cfg : SimConfig) {R : GenRng} :
    ∀ (fuel : ℕ) (sys : List Planet), sunInv sys → 1 ≤ sys.length →
      sunInv (genLoop cfg R fuel sys)
  | 0, _, h, _ => h
  | fuel + 1, sys, h, hl => by
    unfold genLoop
    dsimp only
    have hm : sunInv (moonLoop R (fuel + 1)
        (sys ++ [Planet.new (cfg.sun_rad * R.sizeMult sys.length)]) sys.length
        (cfg.sun_rad * R.sizeMult sys.length)) := by
      apply sunInv_moonLoop (fuel + 1) _ sys.length _
        (sunInv_append_single h _) (by omega)
      simp
    split
    · exact sunInv_take hm hl
    · apply sunInv_genLoop cfg fuel _ ?_ ?_
      · apply sunInv_set_ne (sunInv_set_zero_moons hm _) (by omega)
      · have h1 := moonLoop_length_le (R := R) (fuel + 1)
          (sys ++ [Planet.new (cfg.sun_rad * R.sizeMult sys.length)]) sys.length
          (cfg.sun_rad * R.sizeMult sys.length)
        simp at h1
        rw [List.length_set, List.length_set]
        omega

theorem sunInv_ensure_features {R : GenRng} {sys : List Planet}
    (h : sunInv sys) (hl : 4 ≤ sys.length) : sunInv (ensure_features R sys) := by
  unfold ensure_features
  apply sunInv_set_ne
  · apply sunInv_set_ne
    · exact sunInv_set_ne h (by omega)
    · omega
  · omega

theorem sunInv_featureSprinkle (R : GenRng) {sys : List Planet} (h : sunInv sys) :
    sunInv (featureSprinkle R sys 0) := by
  cases sys with
  | nil => exact h
  | cons pl tl => exact h

/-- C9: in every successfully constructed system, the sun (body `0`) has no
orbit and no feature and sits at the origin, and arbitrarily many ticks of
`Sim::update` (under any configuration and oracle) never move it. -/
theorem claim_C9_sun (cfg : SimConfig) (O : Oracle) (R : GenRng) (fuel : ℕ)
    (st : Sim) (h : Sim.new cfg O R fuel = some st)
    (cfg' : SimConfig) (O' : Oracle) :
    ((planetAt st.system 0).orbit = none ∧ (planetAt st.system 0).feat = none ∧
      posOf st.system 0 = (0, 0)) ∧
    ∀ k, posOf (((Sim.update cfg' O')^[k]) st).system 0 = (0, 0) := by
  have hsys : sunInv st.system := by
    unfold Sim.new at h
    dsimp only at h
    split at h
    · exact absurd h (by simp)
    · rename_i hlen
      have hst : st.system = featureSprinkle R
          (ensure_features R (genLoop cfg R fuel [Planet.new cfg.sun_rad])) 0 := by
        cases h
        rfl
      rw [hst]
      apply sunInv_featureSprinkle
      apply sunInv_ensure_features
      · exact sunInv_genLoop cfg fuel _ ⟨rfl, rfl, rfl⟩ (by simp)
      · omega
  have hiter : ∀ k, sunInv (((Sim.update cfg' O')^[k]) st).system := by
    intro k
    induction k with
    | zero => exact hsys
    | succ n ih =>
      rw [Function.iterate_succ_apply']
      exact sunInv_sim_update cfg' O' _ ih
  exact ⟨⟨hsys.2.1, hsys.2.2, hsys.1⟩, fun k => (hiter k).1⟩

/-- Witness for C9: the generation trace with draws `R0` and fuel `3`
produces the concrete four-body system `simC9`, to which the theorem
applies. -/
theorem claim_C9_sun_witness :
    Sim.new cfgC1 O0 R0 3 = some simC9 ∧
    posOf (((Sim.update cfgC1 O0)^[1]) simC9).system 0 = (0, 0) := by
  have h : Sim.new cfgC1 O0 R0 3 = some simC9 := by with_unfolding_all decide
  exact ⟨h, (claim_C9_sun cfgC1 O0 R0 3 simC9 h cfgC1 O0).2 1⟩

/-! ### Stock accounting helpers (C4, C6, C7) -/

theorem getD_set_self {α : Type} (l : List α) (t : ℕ) (x d : α) (h : t < l.length) :
    (l.set t x).getD t d = x := by
  unfold List.getD
  rw [List.get?_eq_getElem?, List.getElem?_set_self h]
  rfl

theorem getD_set_ne {α : Type} (l : List α) (t : ℕ) (x d : α) {j : ℕ} (h : t ≠ j) :
    (l.set t x).getD j d = l.getD j d := by
  unfold List.getD
  rw [List.get?_set_ne x l h]

theorem shipAt_set_self {ships : List Ship} {t : ℕ} (x : Ship) (h : t < ships.length) :
    shipAt (ships.set t x) t = x :=
  getD_set_self ships t x junkShip h

theorem shipAt_set_ne {ships : List Ship} {t : ℕ} (x : Ship) {j : ℕ} (h : t ≠ j) :
    shipAt (ships.set t x) j = shipAt ships j :=
  getD_set_ne ships t x junkShip h

theorem stockOf_feat {pl : Planet} {s : ℕ} (h : stockOf pl = some s) :
    pl.feat = some (PlanetFeature.Station s) := by
  unfold stockOf at h
  cases hf : pl.feat with
  | none => rw [hf] at h; exact absurd h (by simp)
  | some f =>
    cases f with
    | Station d => rw [hf] at h; simp at h; rw [h]
    | Ore => rw [hf] at h; exact absurd h (by simp)

theorem stockOf_lt_length {sys : List Planet} {t s : ℕ}
    (h : stockOf (planetAt sys t) = some s) : t < sys.length := by
  by_contra hc
  rw [planetAt_out_of_range (Nat.le_of_not_lt hc)] at h
  exact absurd h (by simp [stockOf, junkPlanet, Planet.new])

theorem incStock_length (sys : List Planet) (t : ℕ) :
    (incStock sys t).length = sys.length := by
  unfold incStock
  cases stockOf (planetAt sys t) with
  | none => rfl
  | some s => exact List.length_set sys t _

theorem decStock_length (sys : List Planet) (t : ℕ) :
    (decStock sys t).length = sys.length := by
  unfold decStock
  cases stockOf (planetAt sys t) with
  | none => rfl
  | some s => exact List.length_set sys t _

theorem planetAt_incStock_self {sys : List Planet} {t s : ℕ}
    (h : stockOf (planetAt sys t) = some s) :
    planetAt (incStock sys t) t = setStock (planetAt sys t) (s + 1) := by
  unfold incStock
  rw [h]
  exact planetAt_set_self _ (stockOf_lt_length h)

theorem planetAt_decStock_self {sys : List Planet} {t s : ℕ}
    (h : stockOf (planetAt sys t) = some s) :
    planetAt (decStock sys t) t = setStock (planetAt sys t) (s - 1) := by
  unfold decStock
  rw [h]
  exact planetAt_set_self _ (stockOf_lt_length h)

theorem planetAt_incStock_ne (sys : List Planet) (t : ℕ) {j : ℕ} (h : t ≠ j) :
    planetAt (incStock sys t) j = planetAt sys j := by
  unfold incStock
  cases stockOf (planetAt sys t) with
  | none => rfl
  | some s => exact planetAt_set_ne _ h

theorem planetAt_decStock_ne (sys : List Planet) (t : ℕ) {j : ℕ} (h : t ≠ j) :
    planetAt (decStock sys t) j = planetAt sys j := by
  unfold decStock
  cases stockOf (planetAt sys t) with
  | none => rfl
  | some s => exact planetAt_set_ne _ h

theorem featMatches_setStock (pl : Planet) (s : ℕ) :
    featMatches (some (PlanetFeature.Station 0)) (setStock pl s).feat = true := rfl

theorem station_indices_incStock (sys : List Planet) (t : ℕ) :
    station_indices (incStock sys t) = station_indices sys := by
  unfold station_indices filter_system
  rw [incStock_length]
  apply List.filter_congr
  intro i _
  cases hst : stockOf (planetAt sys t) with
  | none =>
    unfold incStock
    rw [hst]
  | some s =>
    rcases eq_or_ne t i with rfl | hne
    · rw [planetAt_incStock_self hst, featMatches_setStock]
      rw [stockOf_feat hst]
      rfl
    · rw [planetAt_incStock_ne sys t hne]

theorem station_stockOf {sys : List Planet} {i : ℕ} (h : i ∈ station_indices sys) :
    ∃ d, stockOf (planetAt sys i) = some d := by
  unfold station_indices filter_system at h
  have h2 := List.of_mem_filter h
  cases hf : (planetAt sys i).feat with
  | none => rw [hf] at h2; exact absurd h2 (by simp [featMatches])
  | some f =>
    cases f with
    | Station d => exact ⟨d, by unfold stockOf; rw [hf]⟩
    | Ore => rw [hf] at h2; exact absurd h2 (by simp [featMatches])

theorem chooseList_mem {α : Type} {l : List α} {d : ℕ} {x : α}
    (h : chooseList l d = some x) : x ∈ l := by
  unfold chooseList at h
  split at h
  · exact absurd h (by simp)
  · exact List.get?_mem h

theorem chooseList_isSome {α : Type} {l : List α} (h : l ≠ []) (d : ℕ) :
    ∃ x, chooseList l d = some x := by
  unfold chooseList
  rw [if_neg (by simpa using h)]
  have hlen : 0 < l.length := List.length_pos.mpr h
  have hm : d % l.length < l.length := Nat.mod_lt d hlen
  cases hq : l.get? (d % l.length) with
  | none => exact absurd (List.get?_eq_none.mp hq) (Nat.not_le.mpr hm)
  | some a => exact ⟨a, rfl⟩

/-- C4: when a trader completes a `Visit{target}` at a station holding `s`
units: a deposit happens exactly when it arrives with cargo (stock `s + 1`,
flag cleared); the new destination is drawn from the stations other than
`target`; one unit is picked up (stock decremented, flag set) exactly when
the target's stock now exceeds the chosen destination's and the ship did
not arrive carrying cargo; the new goal is `Visit{dest}`; all other bodies
are untouched. -/
theorem claim_C4_trader_arrival (cfg : SimConfig) (O : Oracle) (st : Sim)
    (i target s : ℕ) (cargo : Bool)
    (hi : i < st.ships.length)
    (hjob : (shipAt st.ships i).job = ShipJob.Trader cargo)
    (hgoal : (shipAt st.ships i).goal = ShipGoal.Visit target)
    (hstock : stockOf (planetAt st.system target) = some s)
    (hne : (station_indices st.system).filter (fun pl => pl ≠ target) ≠ []) :
    ∃ dest d,
      dest ∈ station_indices st.system ∧ dest ≠ target ∧
      stockOf (planetAt st.system dest) = some d ∧
      ((shipAt (update_ship_goal cfg O st i).ships i).goal = ShipGoal.Visit dest ∧
       (shipAt (update_ship_goal cfg O st i).ships i).job =
         ShipJob.Trader (decide (d < (if cargo then s + 1 else s) ∧ cargo = false)) ∧
       stockOf (planetAt (update_ship_goal cfg O st i).system target) =
         some (if d < (if cargo then s + 1 else s) ∧ cargo = false
               then (if cargo then s + 1 else s) - 1
               else (if cargo then s + 1 else s)) ∧
       (∀ j, j ≠ target →
         planetAt (update_ship_goal cfg O st i).system j = planetAt st.system j)) := by
  obtain ⟨dest, hdest⟩ :=
    chooseList_isSome hne (O.pickD st.rng)
  have hdmem : dest ∈ (station_indices st.system).filter (fun pl => pl ≠ target) :=
    chooseList_mem hdest
  have hdstation : dest ∈ station_indices st.system := List.mem_of_mem_filter hdmem
  have hdne : dest ≠ target := by
    have := List.of_mem_filter hdmem
    simpa using this
  obtain ⟨d, hd⟩ := station_stockOf hdstation
  refine ⟨dest, d, hdstation, hdne, hd, ?_⟩
  simp only [update_ship_goal, hjob, hgoal]
  cases cargo with
  | false =>
    simp only [Bool.false_eq_true, if_false]
    rw [hdest]
    dsimp only
    rw [hstock, hd]
    dsimp only [Option.getD_some]
    by_cases hp : d < s
    · rw [if_pos (by simpa using hp)]
      dsimp only
      constructor
      · rw [shipAt_set_self _ (by simpa using hi)]
      constructor
      · rw [shipAt_set_self _ (by simpa using hi), shipAt_set_self _ (by simpa using hi)]
        simp [hp]
      constructor
      · rw [planetAt_decStock_self hstock]
        simp [setStock, stockOf, hp]
      · intro j hj
        exact planetAt_decStock_ne st.system target (fun he => hj he.symm)
    · rw [if_neg (by simpa using hp)]
      dsimp only
      constructor
      · rw [shipAt_set_self _ (by simpa using hi)]
      constructor
      · rw [shipAt_set_self _ (by simpa using hi), hjob]
        simp [hp]
      constructor
      · rw [hstock]
        simp [hp]
      · intro j hj
        rfl
  | true =>
    simp only [if_true]
    rw [station_indices_incStock, hdest]
    dsimp only
    have htarget1 : stockOf (planetAt (incStock st.system target) target) = some (s + 1) := by
      rw [planetAt_incStock_self hstock]
      rfl
    have hdest1 : stockOf (planetAt (incStock st.system target) dest) = some d := by
      rw [planetAt_incStock_ne st.system target (fun he => hdne he.symm)]
      exact hd
    rw [htarget1, hdest1]
    dsimp only [Option.getD_some]
    rw [if_neg (by simp)]
    dsimp only
    constructor
    · rw [shipAt_set_self _ (by simpa using hi)]
    constructor
    · rw [shipAt_set_self _ (by simpa using hi),
        shipAt_set_self _ (by simpa using hi)]
      simp
    constructor
    · rw [htarget1]
      simp
    · intro j hj
      exact planetAt_incStock_ne st.system target (fun he => hj he.symm)

/-- Witness for C4: the trader of `simC4` arrives without cargo at the
station holding `2` units; the only other station holds `0`, so it picks a
unit up. -/
theorem claim_C4_trader_arrival_witness :
    ∃ dest d,
      dest ∈ station_indices simC4.system ∧ dest ≠ 1 ∧
      stockOf (planetAt simC4.system dest) = some d ∧
      ((shipAt (update_ship_goal cfgC1 O0 simC4 0).ships 0).goal = ShipGoal.Visit dest ∧
       (shipAt (update_ship_goal cfgC1 O0 simC4 0).ships 0).job =
         ShipJob.Trader (decide (d < (if false then 2 + 1 else 2) ∧ false = false)) ∧
       stockOf (planetAt (update_ship_goal cfgC1 O0 simC4 0).system 1) =
         some (if d < (if false then 2 + 1 else 2) ∧ false = false
               then (if false then 2 + 1 else 2) - 1
               else (if false then 2 + 1 else 2)) ∧
       (∀ j, j ≠ 1 →
         planetAt (update_ship_goal cfgC1 O0 simC4 0).system j = planetAt simC4.system j)) :=
  claim_C4_trader_arrival cfgC1 O0 simC4 0 1 2 false
    (by with_unfolding_all decide) (by with_unfolding_all decide)
    (by with_unfolding_all decide) (by with_unfolding_all decide)
    (by with_unfolding_all decide)

/-! ### Trader spawning (C7) -/

theorem planetAt_map {sys : List Planet} (f : Planet → Planet) {i : ℕ}
    (h : i < sys.length) : planetAt (sys.map f) i = f (planetAt sys i) := by
  unfold planetAt
  unfold List.getD
  rw [List.get?_map, get?_planetAt h]
  rfl

theorem spawnShipFrom_goal {cfg : SimConfig} {O : Oracle} {j : ℕ} {pl : Planet}
    {sh : Ship} (h : spawnShipFrom cfg O (j, pl) = some sh) :
    sh.goal = ShipGoal.Visit j := by
  unfold spawnShipFrom at h
  revert h
  cases pl.feat with
  | none => simp
  | some f =>
    cases f with
    | Station s =>
      dsimp only
      split
      · intro h
        cases h
        rfl
      · simp
    | Ore => simp

theorem spawn_ships_before (cfg : SimConfig) (O : Oracle) :
    ∀ (sys : List Planet) (n i : ℕ), i < n →
      ((sys.enumFrom n).filterMap (spawnShipFrom cfg O)).filter
        (fun sh => decide (sh.goal = ShipGoal.Visit i)) = []
  | [], _, _, _ => rfl
  | pl :: tl, n, i, h => by
    show ((((n, pl) :: tl.enumFrom (n + 1)).filterMap (spawnShipFrom cfg O)).filter _) = []
    rw [List.filterMap_cons]
    cases hsp : spawnShipFrom cfg O (n, pl) with
    | none => exact spawn_ships_before cfg O tl (n + 1) i (Nat.lt_succ_of_lt h)
    | some sh =>
      rw [List.filter_cons]
      have hg : (decide (sh.goal = ShipGoal.Visit i)) = false := by
        rw [spawnShipFrom_goal hsp]
        simp
        omega
      rw [hg]
      exact spawn_ships_before cfg O tl (n + 1) i (Nat.lt_succ_of_lt h)

theorem spawn_ships_at (cfg : SimConfig) (O : Oracle) :
    ∀ (sys : List Planet) (n i : ℕ), n ≤ i → i - n < sys.length →
      ((sys.enumFrom n).filterMap (spawnShipFrom cfg O)).filter
          (fun sh => decide (sh.goal = ShipGoal.Visit i)) =
        (spawnShipFrom cfg O (i, planetAt sys (i - n))).toList
  | [], n, i, _, h2 => absurd h2 (by simp)
  | pl :: tl, n, i, h1, h2 => by
    show ((((n, pl) :: tl.enumFrom (n + 1)).filterMap (spawnShipFrom cfg O)).filter _) = _
    rw [List.filterMap_cons]
    rcases eq_or_ne i n with rfl | hne
    · rw [Nat.sub_self]
      show _ = (spawnShipFrom cfg O (i, pl)).toList
      cases hsp : spawnShipFrom cfg O (i, pl) with
      | none => exact spawn_ships_before cfg O tl (i + 1) i (Nat.lt_succ_self i)
      | some sh =>
        rw [List.filter_cons]
        have hg : (decide (sh.goal = ShipGoal.Visit i)) = true := by
          rw [spawnShipFrom_goal hsp]
          simp
        rw [hg]
        rw [spawn_ships_before cfg O tl (i + 1) i (Nat.lt_succ_self i)]
        simp
    · have hlt : n < i := lt_of_le_of_ne h1 (Ne.symm hne)
      have hstep : planetAt (pl :: tl) (i - n) = planetAt tl (i - (n + 1)) := by
        have : i - n = (i - (n + 1)) + 1 := by omega
        rw [this]
        rfl
      rw [hstep]
      have hrec := spawn_ships_at cfg O tl (n + 1) i hlt (by simp at h2 ⊢; omega)
      cases hsp : spawnShipFrom cfg O (n, pl) with
      | none => exact hrec
      | some sh =>
        rw [List.filter_cons]
        have hg : (decide (sh.goal = ShipGoal.Visit i)) = false := by
          rw [spawnShipFrom_goal hsp]
          simp
          omega
        rw [hg]
        exact hrec

/-- C7: on every tick, a station whose stock strictly exceeds the ship cost
pays exactly the cost and contributes exactly one new trader (no cargo,
docked at the station, goal `Visit{station}`) to the ships appended by the
spawning phase; a station whose stock does not exceed the cost is left
unchanged and contributes no ship. -/
theorem claim_C7_spawn (cfg : SimConfig) (O : Oracle) (st : Sim) (i : ℕ)
    (h : i < st.system.length) :
    (∀ s, (planetAt st.system i).feat = some (PlanetFeature.Station s) →
      cfg.ship_cost < s →
        planetAt (spawnPhase cfg O st).system i =
          setStock (planetAt st.system i) (s - cfg.ship_cost) ∧
        ((spawnPhase cfg O st).ships.drop st.ships.length).filter
            (fun sh => decide (sh.goal = ShipGoal.Visit i)) =
          [{ Ship.new (ShipJob.Trader false) cfg.ship_speed (O.shipAngle i) with
               pos := (planetAt st.system i).pos, goal := ShipGoal.Visit i }]) ∧
    (∀ s, (planetAt st.system i).feat = some (PlanetFeature.Station s) →
      ¬ cfg.ship_cost < s →
        planetAt (spawnPhase cfg O st).system i = planetAt st.system i ∧
        ((spawnPhase cfg O st).ships.drop st.ships.length).filter
            (fun sh => decide (sh.goal = ShipGoal.Visit i)) = []) := by
  have hdrop : (spawnPhase cfg O st).ships.drop st.ships.length =
      st.system.enum.filterMap (spawnShipFrom cfg O) := by
    show (st.ships ++ st.system.enum.filterMap (spawnShipFrom cfg O)).drop
        st.ships.length = _
    exact List.drop_left st.ships _
  have henum : st.system.enum = st.system.enumFrom 0 := rfl
  have hships := spawn_ships_at cfg O st.system 0 i (Nat.zero_le i) (by simpa using h)
  rw [Nat.sub_zero] at hships
  constructor
  · intro s hfeat hcost
    constructor
    · show planetAt (st.system.map (spawnStock cfg)) i = _
      rw [planetAt_map _ h]
      unfold spawnStock
      rw [hfeat]
      dsimp only
      rw [if_pos hcost]
    · rw [hdrop, henum, hships]
      unfold spawnShipFrom
      rw [hfeat]
      dsimp only
      rw [if_pos hcost]
      rfl
  · intro s hfeat hcost
    constructor
    · show planetAt (st.system.map (spawnStock cfg)) i = _
      rw [planetAt_map _ h]
      unfold spawnStock
      rw [hfeat]
      dsimp only
      rw [if_neg hcost]
    · rw [hdrop, henum, hships]
      unfold spawnShipFrom
      rw [hfeat]
      dsimp only
      rw [if_neg hcost]
      rfl

/-- Witness for C7: the single station of `simC6` holds `5 > 4` units, pays
`4` and spawns exactly one trader docked at itself. -/
theorem claim_C7_spawn_witness :
    planetAt (spawnPhase cfgC1 O0 simC6).system 1 =
      setStock (planetAt simC6.system 1) (5 - cfgC1.ship_cost) ∧
    ((spawnPhase cfgC1 O0 simC6).ships.drop simC6.ships.length).filter
        (fun sh => decide (sh.goal = ShipGoal.Visit 1)) =
      [{ Ship.new (ShipJob.Trader false) cfgC1.ship_speed (O0.shipAngle 1) with
           pos := (planetAt simC6.system 1).pos, goal := ShipGoal.Visit 1 }] :=
  (claim_C7_spawn cfgC1 O0 simC6 1 (by with_unfolding_all decide)).1 5
    (by with_unfolding_all decide) (by with_unfolding_all decide)

/-! ### Economy accounting (C6, amended) -/

theorem sumStock_cons (pl : Planet) (tl : List Planet) :
    sumStock (pl :: tl) = plStock pl + sumStock tl := by
  unfold sumStock
  simp

theorem sumStock_set :
    ∀ (sys : List Planet) (t : ℕ) (x : Planet), t < sys.length →
      sumStock (sys.set t x) + plStock (planetAt sys t) = sumStock sys + plStock x
  | [], t, x, h => absurd h (by simp)
  | pl :: tl, 0, x, _ => by
    show sumStock (x :: tl) + plStock pl = _
    rw [sumStock_cons, sumStock_cons]
    omega
  | pl :: tl, t + 1, x, h => by
    show sumStock (pl :: tl.set t x) + plStock (planetAt tl t) = _
    rw [sumStock_cons, sumStock_cons]
    have := sumStock_set tl t x (by simpa using h)
    omega

theorem plStock_setStock (pl : Planet) (s : ℕ) : plStock (setStock pl s) = s := rfl

theorem plStock_of_stockOf {pl : Planet} {s : ℕ} (h : stockOf pl = some s) :
    plStock pl = s := by
  unfold plStock
  rw [h]
  rfl

theorem sumStock_incStock {sys : List Planet} {t s : ℕ}
    (h : stockOf (planetAt sys t) = some s) :
    sumStock (incStock sys t) = sumStock sys + 1 := by
  unfold incStock
  rw [h]
  dsimp only
  have h1 := sumStock_set sys t (setStock (planetAt sys t) (s + 1)) (stockOf_lt_length h)
  rw [plStock_setStock, plStock_of_stockOf h] at h1
  omega

theorem sumStock_decStock {sys : List Planet} {t s : ℕ}
    (h : stockOf (planetAt sys t) = some s) (hs : 1 ≤ s) :
    sumStock (decStock sys t) + 1 = sumStock sys := by
  unfold decStock
  rw [h]
  dsimp only
  have h1 := sumStock_set sys t (setStock (planetAt sys t) (s - 1)) (stockOf_lt_length h)
  rw [plStock_setStock, plStock_of_stockOf h] at h1
  omega

theorem cargoCount_cons (sh : Ship) (tl : List Ship) :
    cargoCount (sh :: tl) =
      cargoCount tl + (if sh.job = ShipJob.Trader true then 1 else 0) := by
  unfold cargoCount
  rw [List.countP_cons]
  simp

theorem cargoCount_set :
    ∀ (ships : List Ship) (t : ℕ) (x : Ship), t < ships.length →
      cargoCount (ships.set t x) +
          (if (shipAt ships t).job = ShipJob.Trader true then 1 else 0) =
        cargoCount ships + (if x.job = ShipJob.Trader true then 1 else 0)
  | [], t, x, h => absurd h (by simp)
  | sh :: tl, 0, x, _ => by
    show cargoCount (x :: tl) + _ = _
    rw [cargoCount_cons, cargoCount_cons]
    have : shipAt (sh :: tl) 0 = sh := rfl
    rw [this]
    omega
  | sh :: tl, t + 1, x, h => by
    show cargoCount (sh :: tl.set t x) + _ = _
    rw [cargoCount_cons, cargoCount_cons]
    have hstep : shipAt (sh :: tl) (t + 1) = shipAt tl t := rfl
    rw [hstep]
    have := cargoCount_set tl t x (by simpa using h)
    omega

theorem cargoCount_append (l1 l2 : List Ship) :
    cargoCount (l1 ++ l2) = cargoCount l1 + cargoCount l2 := by
  unfold cargoCount
  rw [List.countP_append]

theorem spawnShipFrom_job {cfg : SimConfig} {O : Oracle} {j : ℕ} {pl : Planet}
    {sh : Ship} (h : spawnShipFrom cfg O (j, pl) = some sh) :
    sh.job = ShipJob.Trader false := by
  unfold spawnShipFrom at h
  revert h
  cases pl.feat with
  | none => simp
  | some f =>
    cases f with
    | Station s =>
      dsimp only
      split
      · intro h
        cases h
        rfl
      · simp
    | Ore => simp

theorem cargoCount_spawned (cfg : SimConfig) (O : Oracle) (l : List (ℕ × Planet)) :
    cargoCount (l.filterMap (spawnShipFrom cfg O)) = 0 := by
  unfold cargoCount
  rw [List.countP_eq_zero]
  intro sh hsh
  rcases List.mem_filterMap.mp hsh with ⟨⟨j, pl⟩, _, hsp⟩
  simp [spawnShipFrom_job hsp]

theorem spawn_sum (cfg : SimConfig) (O : Oracle) :
    ∀ (sys : List Planet) (n : ℕ),
      sumStock (sys.map (spawnStock cfg)) +
          cfg.ship_cost * ((sys.enumFrom n).filterMap (spawnShipFrom cfg O)).length =
        sumStock sys
  | [], _ => by simp [sumStock]
  | pl :: tl, n => by
    show sumStock (spawnStock cfg pl :: tl.map (spawnStock cfg)) +
        cfg.ship_cost *
          ((((n, pl) :: tl.enumFrom (n + 1)).filterMap (spawnShipFrom cfg O)).length) =
      sumStock (pl :: tl)
    rw [List.filterMap_cons, sumStock_cons, sumStock_cons]
    have hrec := spawn_sum cfg O tl (n + 1)
    cases hf : pl.feat with
    | none =>
      have h1 : spawnStock cfg pl = pl := by unfold spawnStock; rw [hf]
      have h2 : spawnShipFrom cfg O (n, pl) = none := by unfold spawnShipFrom; rw [hf]
      rw [h1, h2]
      dsimp only
      omega
    | some f =>
      cases f with
      | Ore =>
        have h1 : spawnStock cfg pl = pl := by unfold spawnStock; rw [hf]
        have h2 : spawnShipFrom cfg O (n, pl) = none := by unfold spawnShipFrom; rw [hf]
        rw [h1, h2]
        dsimp only
        omega
      | Station s =>
        by_cases hc : cfg.ship_cost < s
        · have h1 : spawnStock cfg pl = setStock pl (s - cfg.ship_cost) := by
            unfold spawnStock
            rw [hf]
            dsimp only
            rw [if_pos hc]
          have h2 : ∃ sh, spawnShipFrom cfg O (n, pl) = some sh := by
            unfold spawnShipFrom
            rw [hf]
            dsimp only
            rw [if_pos hc]
            exact ⟨_, rfl⟩
          obtain ⟨sh, h2⟩ := h2
          rw [h1, h2]
          dsimp only
          have h3 : plStock pl = s := by
            unfold plStock stockOf
            rw [hf]
            rfl
          rw [plStock_setStock, h3]
          simp only [List.length_cons]
          have : cfg.ship_cost * (((tl.enumFrom (n + 1)).filterMap
              (spawnShipFrom cfg O)).length + 1) =
            cfg.ship_cost * ((tl.enumFrom (n + 1)).filterMap
              (spawnShipFrom cfg O)).length + cfg.ship_cost := by ring
          rw [this]
          omega
        · have h1 : spawnStock cfg pl = pl := by
            unfold spawnStock
            rw [hf]
            dsimp only
            rw [if_neg hc]
          have h2 : spawnShipFrom cfg O (n, pl) = none := by
            unfold spawnShipFrom
            rw [hf]
            dsimp only
            rw [if_neg hc]
          rw [h1, h2]
          dsimp only
          omega

theorem cargoCount_set_same {ships : List Ship} {t : ℕ} {x : Ship}
    (h : (if x.job = ShipJob.Trader true then 1 else 0) =
      (if (shipAt ships t).job = ShipJob.Trader true then 1 else 0)) :
    cargoCount (ships.set t x) = cargoCount ships := by
  by_cases ht : t < ships.length
  · have h2 := cargoCount_set ships t x ht
    omega
  · rw [List.set_eq_of_length_le (Nat.le_of_not_lt ht)]

theorem cargoCount_set_goal (ships : List Ship) (t : ℕ) (g : ShipGoal) :
    cargoCount (ships.set t
      { pos := (shipAt ships t).pos, speed := (shipAt ships t).speed,
        initial_speed := (shipAt ships t).initial_speed,
        angle := (shipAt ships t).angle, goal := g,
        job := (shipAt ships t).job }) = cargoCount ships :=
  cargoCount_set_same rfl

theorem plStock_congr {pl pl' : Planet} (h : pl.feat = pl'.feat) :
    plStock pl = plStock pl' := by
  unfold plStock stockOf
  rw [h]

theorem stockOf_congr {pl pl' : Planet} (h : pl.feat = pl'.feat) :
    stockOf pl = stockOf pl' := by
  unfold stockOf
  rw [h]

theorem sumStock_congr_feats : ∀ {sys sys' : List Planet},
    sys.map Planet.feat = sys'.map Planet.feat → sumStock sys = sumStock sys'
  | [], [], _ => rfl
  | [], _ :: _, h => absurd h (by simp)
  | _ :: _, [], h => absurd h (by simp)
  | a :: tl, b :: tl', h => by
    simp only [List.map_cons, List.cons.injEq] at h
    rw [sumStock_cons, sumStock_cons, plStock_congr h.1,
      sumStock_congr_feats h.2]

theorem planetAt_feat_congr {sys sys' : List Planet}
    (h : sys.map Planet.feat = sys'.map Planet.feat) (t : ℕ) :
    (planetAt sys t).feat = (planetAt sys' t).feat := by
  have hlen : sys.length = sys'.length := by
    have h2 := congrArg List.length h
    simpa using h2
  by_cases ht : t < sys.length
  · have h1 := get?_planetAt ht
    have h2 := get?_planetAt (show t < sys'.length from hlen ▸ ht)
    have h3 := congrArg (fun l => l.get? t) h
    simp only [List.get?_map, h1, h2] at h3
    simpa using h3
  · rw [planetAt_out_of_range (Nat.le_of_not_lt ht),
      planetAt_out_of_range (show sys'.length ≤ t from hlen ▸ Nat.le_of_not_lt ht)]

theorem update_planet_body_feats (O : Oracle) (r : ℚ) (sys : List Planet) (i : ℕ) :
    (update_planet_body O r sys i).map Planet.feat = sys.map Planet.feat := by
  unfold update_planet_body
  split
  · rfl
  · exact map_set_eq Planet.feat junkPlanet sys i _ rfl

theorem update_planet_pos_feats (O : Oracle) (r : ℚ) :
    ∀ (fuel : ℕ) (sys : List Planet) (i : ℕ),
      (update_planet_pos O r fuel sys i).map Planet.feat = sys.map Planet.feat
  | 0, _, _ => rfl
  | fuel + 1, sys, i => by
    show ((moonsOf (update_planet_body O r sys i) i).foldl
        (fun s m => update_planet_pos O r fuel s m)
        (update_planet_body O r sys i)).map Planet.feat = _
    refine foldl_preserve
      (P := fun (s : List Planet) => s.map Planet.feat = sys.map Planet.feat) ?_ _ _
      (update_planet_body_feats O r sys i)
    intro s m hs
    show (update_planet_pos O r fuel s m).map Planet.feat = _
    rw [update_planet_pos_feats O r fuel s m]
    exact hs

theorem planetPhase_econ (O : Oracle) (st : Sim) :
    econSum (planetPhase O st) = econSum st := by
  unfold econSum
  show sumStock (update_planet_pos O st.system_rad st.system.length st.system 0) +
    cargoCount st.ships = _
  rw [sumStock_congr_feats (update_planet_pos_feats O st.system_rad _ st.system 0)]

theorem stockOf_isSome_incStock (sys : List Planet) (j t : ℕ) :
    (stockOf (planetAt (incStock sys j) t)).isSome =
      (stockOf (planetAt sys t)).isSome := by
  unfold incStock
  cases hs : stockOf (planetAt sys j) with
  | none => rfl
  | some s =>
    rcases eq_or_ne j t with rfl | hne
    · rw [planetAt_set_self _ (stockOf_lt_length hs), hs]
      rfl
    · rw [planetAt_set_ne _ hne]

theorem stockOf_isSome_decStock (sys : List Planet) (j t : ℕ) :
    (stockOf (planetAt (decStock sys j) t)).isSome =
      (stockOf (planetAt sys t)).isSome := by
  unfold decStock
  cases hs : stockOf (planetAt sys j) with
  | none => rfl
  | some s =>
    rcases eq_or_ne j t with rfl | hne
    · rw [planetAt_set_self _ (stockOf_lt_length hs), hs]
      rfl
    · rw [planetAt_set_ne _ hne]

theorem stockOf_isSome_spawnStock (cfg : SimConfig) (pl : Planet) :
    (stockOf (spawnStock cfg pl)).isSome = (stockOf pl).isSome := by
  unfold spawnStock
  cases hf : pl.feat with
  | none => rfl
  | some f =>
    cases f with
    | Ore => rfl
    | Station s =>
      dsimp only
      split
      · have h1 : stockOf pl = some s := by
          unfold stockOf
          rw [hf]
        rw [h1]
        rfl
      · rfl

theorem stockOf_isSome_spawnSys (cfg : SimConfig) (sys : List Planet) (t : ℕ) :
    (stockOf (planetAt (sys.map (spawnStock cfg)) t)).isSome =
      (stockOf (planetAt sys t)).isSome := by
  by_cases ht : t < sys.length
  · rw [planetAt_map (spawnStock cfg) ht]
    exact stockOf_isSome_spawnStock cfg _
  · rw [planetAt_out_of_range (show sys.length ≤ t from Nat.le_of_not_lt ht),
      planetAt_out_of_range
        (show (sys.map (spawnStock cfg)).length ≤ t by
          rw [List.length_map]; exact Nat.le_of_not_lt ht)]

theorem shipTargetOK_eval {sys : List Planet} {sh : Ship} {g : ShipGoal}
    (hgoal : sh.goal = g) (hne : ∀ t, g ≠ ShipGoal.Visit t) :
    shipTargetOK sys sh = true := by
  unfold shipTargetOK
  cases hj : sh.job <;> rw [hgoal] <;> cases g <;>
    first
      | exact absurd rfl (hne _)
      | rfl

theorem shipTargetOK_visit {sys : List Planet} {sh : Ship} {cargo : Bool} {target : ℕ}
    (hj : sh.job = ShipJob.Trader cargo) (hg : sh.goal = ShipGoal.Visit target) :
    shipTargetOK sys sh = (stockOf (planetAt sys target)).isSome := by
  unfold shipTargetOK
  rw [hj, hg]

theorem shipTargetOK_visit_true {sys : List Planet} {y : Ship} {t : ℕ}
    (hg : y.goal = ShipGoal.Visit t) (hs : (stockOf (planetAt sys t)).isSome = true) :
    shipTargetOK sys y = true := by
  unfold shipTargetOK
  cases hj : y.job <;> rw [hg] <;> first | exact hs | rfl

theorem shipTargetOK_nontrader {sys : List Planet} {sh : Ship}
    (hj : ∀ c, sh.job ≠ ShipJob.Trader c) : shipTargetOK sys sh = true := by
  unfold shipTargetOK
  cases hjj : sh.job <;> cases hg : sh.goal <;>
    first
      | exact absurd hjj (hj _)
      | rfl

theorem shipTargetOK_mk {sys : List Planet} {sh sh' : Ship}
    (hj : sh'.job = sh.job) (hg : sh'.goal = sh.goal) :
    shipTargetOK sys sh' = shipTargetOK sys sh := by
  unfold shipTargetOK
  rw [hj, hg]

theorem shipTargetOK_trader_flip {sys : List Planet} {sh sh' : Ship} {c c' : Bool}
    (hj' : sh'.job = ShipJob.Trader c') (hj : sh.job = ShipJob.Trader c)
    (hg : sh'.goal = sh.goal) :
    shipTargetOK sys sh' = shipTargetOK sys sh := by
  unfold shipTargetOK
  rw [hj', hj, hg]
  cases sh.goal <;> rfl

theorem shipTargetOK_congr {sys sys' : List Planet}
    (h : ∀ t, (stockOf (planetAt sys' t)).isSome = (stockOf (planetAt sys t)).isSome)
    (sh : Ship) : shipTargetOK sys' sh = shipTargetOK sys sh := by
  unfold shipTargetOK
  cases hj : sh.job <;> cases hg : sh.goal <;> first | exact h _ | rfl

theorem shipAt_mem : ∀ {ships : List Ship} {i : ℕ}, i < ships.length →
    shipAt ships i ∈ ships
  | a :: tl, 0, _ => List.mem_cons_self a tl
  | a :: tl, i + 1, h => List.mem_cons_of_mem a (shipAt_mem (by simpa using h))
  | [], _, h => absurd h (by simp)

theorem shipAt_set_job {ships : List Ship} {i : ℕ} {x : Ship}
    (h : x.job = (shipAt ships i).job) :
    (shipAt (ships.set i x) i).job = (shipAt ships i).job := by
  by_cases hi : i < ships.length
  · rw [shipAt_set_self _ hi, h]
  · rw [List.set_eq_of_length_le (Nat.le_of_not_lt hi)]

theorem ships_set_target_ok {sys : List Planet} {ships : List Ship}
    (hTW : ∀ sh ∈ ships, shipTargetOK sys sh = true) {i : ℕ} {x : Ship}
    (hx : shipTargetOK sys x = true) :
    ∀ sh ∈ ships.set i x, shipTargetOK sys sh = true := fun sh h => by
  rcases List.mem_or_eq_of_mem_set h with hmem | rfl
  · exact hTW sh hmem
  · exact hx

theorem enumFrom_mem_get? {α : Type} : ∀ {l : List α} {n j : ℕ} {x : α},
    (j, x) ∈ l.enumFrom n → n ≤ j ∧ l.get? (j - n) = some x
  | [], _, _, _, h => absurd h (by simp)
  | a :: tl, n, j, x, h => by
    rcases List.mem_cons.mp h with h1 | h1
    · cases h1
      exact ⟨le_rfl, by simp⟩
    · obtain ⟨hle, hget⟩ := enumFrom_mem_get? h1
      refine ⟨Nat.le_of_succ_le hle, ?_⟩
      have hj : j - n = (j - (n + 1)) + 1 := by omega
      rw [hj]
      simpa using hget

theorem trader_arrival_econ (cfg : SimConfig) (O : Oracle) (st : Sim)
    (i target s : ℕ) (cargo : Bool)
    (hi : i < st.ships.length)
    (hjob : (shipAt st.ships i).job = ShipJob.Trader cargo)
    (hgoal : (shipAt st.ships i).goal = ShipGoal.Visit target)
    (hstock : stockOf (planetAt st.system target) = some s) :
    econSum (update_ship_goal cfg O st i) = econSum st := by
  simp only [update_ship_goal, hjob, hgoal]
  cases cargo with
  | false =>
    simp only [Bool.false_eq_true, if_false]
    cases hch : chooseList ((station_indices st.system).filter (fun pl => pl ≠ target))
        (O.pickD st.rng) with
    | none =>
      rfl
    | some dest =>
      have hdmem := chooseList_mem hch
      have hdstation : dest ∈ station_indices st.system := List.mem_of_mem_filter hdmem
      obtain ⟨d, hd⟩ := station_stockOf hdstation
      dsimp only
      rw [hstock, hd]
      dsimp only [Option.getD_some]
      by_cases hp : d < s
      · rw [if_pos (by simpa using hp)]
        dsimp only
        rw [shipAt_set_self _ (by simpa using hi), List.set_set]
        dsimp only
        unfold econSum
        dsimp only
        have hs1 : 1 ≤ s := by omega
        have hsum := sumStock_decStock hstock hs1
        have hc := cargoCount_set st.ships i
          { shipAt st.ships i with goal := ShipGoal.Visit dest, job := ShipJob.Trader true }
          hi
        rw [hjob] at hc
        simp only [if_neg (by simp : ¬ (ShipJob.Trader false = ShipJob.Trader true)),
          if_pos rfl, if_true, eq_self_iff_true] at hc
        omega
      · rw [if_neg (by simpa using hp)]
        dsimp only
        unfold econSum
        dsimp only
        rw [hjob]
        have hc := cargoCount_set st.ships i
          { shipAt st.ships i with goal := ShipGoal.Visit dest } hi
        simp only [hjob, if_neg (by simp : ¬ (ShipJob.Trader false = ShipJob.Trader true))] at hc
        omega
  | true =>
    simp only [if_true]
    rw [station_indices_incStock]
    cases hch : chooseList ((station_indices st.system).filter (fun pl => pl ≠ target))
        (O.pickD st.rng) with
    | none =>
      dsimp only
      unfold econSum
      dsimp only
      have hsum := sumStock_incStock hstock
      have hc := cargoCount_set st.ships i
        { shipAt st.ships i with goal := ShipGoal.Visit target, job := ShipJob.Trader false }
        hi
      rw [hjob] at hc
      simp only [if_pos rfl, if_true, eq_self_iff_true,
        if_neg (by simp : ¬ (ShipJob.Trader false = ShipJob.Trader true))] at hc
      omega
    | some dest =>
      have hdmem := chooseList_mem hch
      have hdstation : dest ∈ station_indices st.system := List.mem_of_mem_filter hdmem
      have hdne : dest ≠ target := by
        have h2 := List.of_mem_filter hdmem
        simpa using h2
      obtain ⟨d, hd⟩ := station_stockOf hdstation
      dsimp only
      have htarget1 : stockOf (planetAt (incStock st.system target) target) =
          some (s + 1) := by
        rw [planetAt_incStock_self hstock]
        rfl
      have hdest1 : stockOf (planetAt (incStock st.system target) dest) = some d := by
        rw [planetAt_incStock_ne st.system target (fun he => hdne he.symm)]
        exact hd
      rw [htarget1, hdest1]
      dsimp only [Option.getD_some]
      rw [if_neg (by simp)]
      dsimp only
      rw [shipAt_set_self _ (by simpa using hi), List.set_set]
      dsimp only
      unfold econSum
      dsimp only
      have hsum := sumStock_incStock hstock
      have hc := cargoCount_set st.ships i
        { shipAt st.ships i with goal := ShipGoal.Visit dest, job := ShipJob.Trader false }
        hi
      rw [hjob] at hc
      simp only [if_pos rfl, if_true, eq_self_iff_true,
        if_neg (by simp : ¬ (ShipJob.Trader false = ShipJob.Trader true))] at hc
      omega

theorem miner_arrival_econ (cfg : SimConfig) (O : Oracle) (st : Sim)
    (i target s : ℕ)
    (hjob : (shipAt st.ships i).job = ShipJob.Miner)
    (hgoal : (shipAt st.ships i).goal = ShipGoal.Visit target)
    (hstock : stockOf (planetAt st.system target) = some s) :
    econSum (update_ship_goal cfg O st i) = econSum st + 1 := by
  simp only [update_ship_goal, hjob, hgoal]
  rw [stockOf_feat hstock]
  dsimp only
  have hsum := sumStock_incStock hstock
  cases hor : nearest_with_feature (incStock st.system target) (some PlanetFeature.Ore)
      (shipAt st.ships i).pos with
  | nil =>
    unfold econSum
    dsimp only
    omega
  | cons o rest =>
    unfold econSum
    dsimp only
    by_cases hi : i < st.ships.length
    · have hc := cargoCount_set st.ships i
        { shipAt st.ships i with goal := ShipGoal.Visit o } hi
      rw [hjob] at hc
      simp only [hjob, if_neg (by simp : ¬ (ShipJob.Miner = ShipJob.Trader true))] at hc
      omega
    · rw [List.set_eq_of_length_le (Nat.le_of_not_lt hi)]
      omega

theorem spawnPhase_econ (cfg : SimConfig) (O : Oracle) (st : Sim) :
    econSum (spawnPhase cfg O st) +
        cfg.ship_cost * ((spawnPhase cfg O st).ships.length - st.ships.length) =
      econSum st := by
  have hlen : (spawnPhase cfg O st).ships.length - st.ships.length =
      (st.system.enum.filterMap (spawnShipFrom cfg O)).length := by
    show (st.ships ++ st.system.enum.filterMap (spawnShipFrom cfg O)).length - _ = _
    rw [List.length_append]
    omega
  rw [hlen]
  show sumStock (st.system.map (spawnStock cfg)) +
      cargoCount (st.ships ++ st.system.enum.filterMap (spawnShipFrom cfg O)) +
      cfg.ship_cost * (st.system.enum.filterMap (spawnShipFrom cfg O)).length =
    econSum st
  rw [cargoCount_append, cargoCount_spawned]
  have h2 := spawn_sum cfg O st.system 0
  unfold econSum
  simp only [List.enum]
  omega

theorem update_ship_goal_killed (cfg : SimConfig) (O : Oracle) (st : Sim) (i : ℕ) :
    (update_ship_goal cfg O st i).killed = st.killed := by
  unfold update_ship_goal
  split <;> (try dsimp only) <;> (repeat' split) <;> rfl

theorem update_ship_goal_econ (cfg : SimConfig) (O : Oracle) (st : Sim) (i : ℕ)
    (hTW : traderTargetsOK st)
    (hHunt : ∀ origin prey progress, (shipAt st.ships i).job = ShipJob.Pirate origin →
      (shipAt st.ships i).goal = ShipGoal.Hunt prey progress →
      (shipAt st.ships prey).job ≠ ShipJob.Trader true) :
    econSum (update_ship_goal cfg O st i) = econSum st ∨
    (econSum (update_ship_goal cfg O st i) = econSum st + 1 ∧
      (shipAt st.ships i).job = ShipJob.Miner) := by
  cases hj : (shipAt st.ships i).job with
  | Trader cargo =>
    cases hg : (shipAt st.ships i).goal with
    | Visit target =>
      left
      by_cases hi : i < st.ships.length
      · have hok := hTW _ (shipAt_mem hi)
        rw [shipTargetOK_visit hj hg] at hok
        obtain ⟨s, hstock⟩ := Option.isSome_iff_exists.mp hok
        exact trader_arrival_econ cfg O st i target s cargo hi hj hg hstock
      · rw [shipAt_out_of_range (Nat.le_of_not_lt hi)] at hj
        exact absurd hj (by simp [junkShip, Ship.new])
    | Wait t p => left; simp only [update_ship_goal, hj, hg]
    | Wander => left; simp only [update_ship_goal, hj, hg]
    | Hunt prey prog => left; simp only [update_ship_goal, hj, hg]
    | Scan => left; simp only [update_ship_goal, hj, hg]
  | Miner =>
    cases hg : (shipAt st.ships i).goal with
    | Visit target =>
      cases hfeat : (planetAt st.system target).feat with
      | some f =>
        cases f with
        | Station s =>
          right
          refine ⟨?_, rfl⟩
          have hstock : stockOf (planetAt st.system target) = some s := by
            unfold stockOf
            rw [hfeat]
          exact miner_arrival_econ cfg O st i target s hj hg hstock
        | Ore =>
          left
          simp only [update_ship_goal, hj, hg]
          rw [hfeat]
          dsimp only
          unfold econSum
          dsimp only
          congr 1
          first
            | exact cargoCount_set_same rfl
            | exact cargoCount_set_same (by rw [hj])
      | none =>
        left
        simp only [update_ship_goal, hj, hg, hfeat]
    | Wait t p =>
      left
      simp only [update_ship_goal, hj, hg]
      split
      · rfl
      · unfold econSum
        dsimp only
        congr 1
        first
          | exact cargoCount_set_same rfl
          | exact cargoCount_set_same (by rw [hj])
    | Wander => left; simp only [update_ship_goal, hj, hg]
    | Hunt prey prog => left; simp only [update_ship_goal, hj, hg]
    | Scan => left; simp only [update_ship_goal, hj, hg]
  | Pirate origin =>
    cases hg : (shipAt st.ships i).goal with
    | Visit target => left; simp only [update_ship_goal, hj, hg]
    | Wait t p => left; simp only [update_ship_goal, hj, hg]
    | Wander =>
      left
      simp only [update_ship_goal, hj, hg]
      unfold econSum
      dsimp only
      congr 1
      first
        | exact cargoCount_set_same rfl
        | exact cargoCount_set_same (by rw [hj])
    | Scan =>
      left
      simp only [update_ship_goal, hj, hg]
      split
      · unfold econSum
        dsimp only
        congr 1
        first
          | exact cargoCount_set_same rfl
          | exact cargoCount_set_same (by rw [hj])
      · unfold econSum
        dsimp only
        congr 1
        first
          | exact cargoCount_set_same rfl
          | exact cargoCount_set_same (by rw [hj])
    | Hunt prey prog =>
      left
      have hprey := hHunt origin prey prog hj hg
      simp only [update_ship_goal, hj, hg]
      cases hpj : (shipAt st.ships prey).job with
      | Trader cargo =>
        cases cargo with
        | true => exact absurd hpj hprey
        | false =>
          dsimp only
          unfold econSum
          dsimp only
          congr 1
          refine Eq.trans (b := cargoCount (st.ships.set prey
            { pos := (shipAt st.ships prey).pos, speed := (shipAt st.ships prey).speed,
              initial_speed := (shipAt st.ships prey).initial_speed,
              angle := (shipAt st.ships prey).angle, goal := (shipAt st.ships prey).goal,
              job := ShipJob.Trader false })) ?_ ?_
          · exact cargoCount_set_same rfl
          · exact cargoCount_set_same (by rw [hpj])
      | Miner =>
        dsimp only
        unfold econSum
        dsimp only
        congr 1
        first
          | exact cargoCount_set_same rfl
          | exact cargoCount_set_same (by rw [hj])
      | Pirate o2 =>
        dsimp only
        unfold econSum
        dsimp only
        congr 1
        first
          | exact cargoCount_set_same rfl
          | exact cargoCount_set_same (by rw [hj])

theorem targets_decStock {st : Sim} (hTW : traderTargetsOK st) (j : ℕ) :
    ∀ sh ∈ st.ships, shipTargetOK (decStock st.system j) sh = true := fun sh hm => by
  rw [shipTargetOK_congr (fun t => stockOf_isSome_decStock st.system j t)]
  exact hTW sh hm

theorem targets_incStock {st : Sim} (hTW : traderTargetsOK st) (j : ℕ) :
    ∀ sh ∈ st.ships, shipTargetOK (incStock st.system j) sh = true := fun sh hm => by
  rw [shipTargetOK_congr (fun t => stockOf_isSome_incStock st.system j t)]
  exact hTW sh hm

theorem traderTargetsOK_update_ship_goal (cfg : SimConfig) (O : Oracle) (st : Sim)
    (i : ℕ) (hTW : traderTargetsOK st) :
    traderTargetsOK (update_ship_goal cfg O st i) := by
  cases hj : (shipAt st.ships i).job with
  | Trader cargo =>
    cases hg : (shipAt st.ships i).goal with
    | Visit target =>
      have hi : i < st.ships.length := by
        by_contra hc
        rw [shipAt_out_of_range (Nat.le_of_not_lt hc)] at hj
        exact absurd hj (by simp [junkShip, Ship.new])
      have hok := hTW _ (shipAt_mem hi)
      rw [shipTargetOK_visit hj hg] at hok
      obtain ⟨s, hstock⟩ := Option.isSome_iff_exists.mp hok
      simp only [update_ship_goal, hj, hg]
      cases cargo with
      | false =>
        simp only [Bool.false_eq_true, if_false]
        cases hch : chooseList ((station_indices st.system).filter
            (fun pl => pl ≠ target)) (O.pickD st.rng) with
        | none => exact hTW
        | some dest =>
          have hdstation := List.mem_of_mem_filter (chooseList_mem hch)
          obtain ⟨d, hd⟩ := station_stockOf hdstation
          dsimp only
          rw [hstock, hd]
          dsimp only [Option.getD_some]
          by_cases hp : d < s
          · rw [if_pos (by simpa using hp)]
            dsimp only
            rw [shipAt_set_self _ (by simpa using hi), List.set_set]
            dsimp only
            unfold traderTargetsOK
            dsimp only
            refine ships_set_target_ok (targets_decStock hTW target) ?_
            exact shipTargetOK_visit_true rfl
              (by rw [stockOf_isSome_decStock, hd]; rfl)
          · rw [if_neg (by simpa using hp)]
            dsimp only
            unfold traderTargetsOK
            dsimp only
            refine ships_set_target_ok hTW ?_
            exact shipTargetOK_visit_true rfl (by rw [hd]; rfl)
      | true =>
        simp only [if_true]
        rw [station_indices_incStock]
        cases hch : chooseList ((station_indices st.system).filter
            (fun pl => pl ≠ target)) (O.pickD st.rng) with
        | none =>
          dsimp only
          unfold traderTargetsOK
          dsimp only
          refine ships_set_target_ok (targets_incStock hTW target) ?_
          exact shipTargetOK_visit_true rfl
            (by rw [stockOf_isSome_incStock, hstock]; rfl)
        | some dest =>
          have hdmem := chooseList_mem hch
          have hdstation : dest ∈ station_indices st.system :=
            List.mem_of_mem_filter hdmem
          have hdne : dest ≠ target := by
            have h2 := List.of_mem_filter hdmem
            simpa using h2
          obtain ⟨d, hd⟩ := station_stockOf hdstation
          dsimp only
          have htarget1 : stockOf (planetAt (incStock st.system target) target) =
              some (s + 1) := by
            rw [planetAt_incStock_self hstock]
            rfl
          have hdest1 : stockOf (planetAt (incStock st.system target) dest) = some d := by
            rw [planetAt_incStock_ne st.system target (fun he => hdne he.symm)]
            exact hd
          rw [htarget1, hdest1]
          dsimp only [Option.getD_some]
          rw [if_neg (by simp)]
          dsimp only
          rw [shipAt_set_self _ (by simpa using hi), List.set_set]
          dsimp only
          unfold traderTargetsOK
          dsimp only
          refine ships_set_target_ok (targets_incStock hTW target) ?_
          exact shipTargetOK_visit_true rfl (by rw [hdest1]; rfl)
    | Wait t p => simp only [update_ship_goal, hj, hg]; exact hTW
    | Wander => simp only [update_ship_goal, hj, hg]; exact hTW
    | Hunt prey prog => simp only [update_ship_goal, hj, hg]; exact hTW
    | Scan => simp only [update_ship_goal, hj, hg]; exact hTW
  | Miner =>
    cases hg : (shipAt st.ships i).goal with
    | Visit target =>
      simp only [update_ship_goal, hj, hg]
      cases hfeat : (planetAt st.system target).feat with
      | some f =>
        cases f with
        | Station s =>
          dsimp only
          cases hor : nearest_with_feature (incStock st.system target)
              (some PlanetFeature.Ore) (shipAt st.ships i).pos with
          | nil =>
            unfold traderTargetsOK
            dsimp only
            exact targets_incStock hTW target
          | cons o rest =>
            unfold traderTargetsOK
            dsimp only
            refine ships_set_target_ok (targets_incStock hTW target) ?_
            exact shipTargetOK_nontrader (fun c => by simp)
        | Ore =>
          dsimp only
          unfold traderTargetsOK
          dsimp only
          refine ships_set_target_ok hTW ?_
          exact shipTargetOK_nontrader (fun c => by simp)
      | none => exact hTW
    | Wait t p =>
      simp only [update_ship_goal, hj, hg]
      split
      · exact hTW
      · unfold traderTargetsOK
        dsimp only
        refine ships_set_target_ok hTW ?_
        exact shipTargetOK_nontrader (fun c => by simp)
    | Wander => simp only [update_ship_goal, hj, hg]; exact hTW
    | Hunt prey prog => simp only [update_ship_goal, hj, hg]; exact hTW
    | Scan => simp only [update_ship_goal, hj, hg]; exact hTW
  | Pirate origin =>
    cases hg : (shipAt st.ships i).goal with
    | Visit target => simp only [update_ship_goal, hj, hg]; exact hTW
    | Wait t p => simp only [update_ship_goal, hj, hg]; exact hTW
    | Wander =>
      simp only [update_ship_goal, hj, hg]
      unfold traderTargetsOK
      dsimp only
      refine ships_set_target_ok hTW ?_
      exact shipTargetOK_nontrader (fun c => by simp)
    | Scan =>
      simp only [update_ship_goal, hj, hg]
      split
      · unfold traderTargetsOK
        dsimp only
        refine ships_set_target_ok hTW ?_
        exact shipTargetOK_nontrader (fun c => by simp)
      · unfold traderTargetsOK
        dsimp only
        refine ships_set_target_ok hTW ?_
        exact shipTargetOK_nontrader (fun c => by simp)
    | Hunt prey prog =>
      simp only [update_ship_goal, hj, hg]
      cases hpj : (shipAt st.ships prey).job with
      | Trader cargo =>
        dsimp only
        have hplen : prey < st.ships.length := by
          by_contra hc
          rw [shipAt_out_of_range (Nat.le_of_not_lt hc)] at hpj
          exact absurd hpj (by simp [junkShip, Ship.new])
        unfold traderTargetsOK
        dsimp only
        refine ships_set_target_ok (ships_set_target_ok hTW ?_) ?_
        · have hpOK := hTW _ (shipAt_mem hplen)
          cases hgp : (shipAt st.ships prey).goal with
          | Visit t =>
            rw [shipTargetOK_visit hpj hgp] at hpOK
            exact shipTargetOK_visit_true rfl hpOK
          | Wait t p => exact shipTargetOK_eval rfl (fun u => by simp)
          | Wander => exact shipTargetOK_eval rfl (fun u => by simp)
          | Hunt a b => exact shipTargetOK_eval rfl (fun u => by simp)
          | Scan => exact shipTargetOK_eval rfl (fun u => by simp)
        · exact shipTargetOK_eval rfl (fun t => by simp)
      | Miner =>
        dsimp only
        unfold traderTargetsOK
        dsimp only
        refine ships_set_target_ok hTW ?_
        exact shipTargetOK_eval rfl (fun t => by simp)
      | Pirate o2 =>
        dsimp only
        unfold traderTargetsOK
        dsimp only
        refine ships_set_target_ok hTW ?_
        exact shipTargetOK_eval rfl (fun t => by simp)

theorem shipTargetOK_eqv {s : List Planet} {x y : Ship}
    (h : shipTargetOK s y = true) (hj : x.job = y.job) (hg : x.goal = y.goal) :
    shipTargetOK s x = true := by
  rw [shipTargetOK_mk hj hg]
  exact h

theorem update_ship_goal_len (cfg : SimConfig) (O : Oracle) (st : Sim) (i : ℕ) :
    (update_ship_goal cfg O st i).ships.length = st.ships.length := by
  unfold update_ship_goal
  split <;> (try dsimp only) <;> (repeat' split) <;>
    simp [List.length_set]

theorem update_ship_len (cfg : SimConfig) (O : Oracle) (st : Sim) (i : ℕ) :
    (update_ship cfg O st i).ships.length = st.ships.length := by
  unfold update_ship
  split <;> (try dsimp only) <;> (repeat' split) <;>
    simp [update_ship_goal_len, List.length_set]

theorem update_ship_killed (cfg : SimConfig) (O : Oracle) (st : Sim) (i : ℕ)
    (hraid : raidStep cfg O st i = false) :
    (update_ship cfg O st i).killed = st.killed := by
  unfold update_ship
  cases hg : (shipAt st.ships i).goal with
  | Visit target =>
    dsimp only
    split
    · rw [update_ship_goal_killed]
    · rfl
  | Wait target progress =>
    dsimp only
    split
    · rw [update_ship_goal_killed]
    · rfl
  | Wander =>
    dsimp only
    cases hj : (shipAt st.ships i).job with
    | Pirate o =>
      dsimp only
      split
      · rfl
      · rw [update_ship_goal_killed]
    | Trader c => rfl
    | Miner => rfl
  | Scan => rw [update_ship_goal_killed]
  | Hunt prey progress =>
    dsimp only
    cases hpj : (shipAt (st.ships.set i (update_ship_pos O (shipAt st.ships i)
        (shipAt st.ships prey).pos)) prey).job with
    | Trader cargo =>
      dsimp only
      split
      · rw [update_ship_goal_killed]
      · split
        · split
          · exfalso
            rename_i hcargo hdist hdur
            have hct : cargo = true := by
              cases cargo
              · exact absurd rfl hcargo
              · rfl
            have htrue : raidStep cfg O st i = true := by
              unfold raidStep
              rw [hg]
              dsimp only
              rw [hpj]
              dsimp only
              rw [hct]
              simp [hdist, hdur]
            rw [hraid] at htrue
            exact Bool.false_ne_true htrue
          · rfl
        · rfl
    | Miner => rfl
    | Pirate o => rfl

theorem traderTargetsOK_update_ship (cfg : SimConfig) (O : Oracle) (st : Sim) (i : ℕ)
    (hi : i < st.ships.length) (hTW : traderTargetsOK st) :
    traderTargetsOK (update_ship cfg O st i) := by
  unfold update_ship
  cases hg : (shipAt st.ships i).goal with
  | Visit target =>
    dsimp only
    split
    · refine traderTargetsOK_update_ship_goal cfg O _ i ?_
      unfold traderTargetsOK
      dsimp only
      exact ships_set_target_ok hTW (shipTargetOK_eqv (hTW _ (shipAt_mem hi)) rfl rfl)
    · unfold traderTargetsOK
      dsimp only
      exact ships_set_target_ok hTW (shipTargetOK_eqv (hTW _ (shipAt_mem hi)) rfl rfl)
  | Wait target progress =>
    dsimp only
    split
    · refine traderTargetsOK_update_ship_goal cfg O _ i ?_
      unfold traderTargetsOK
      dsimp only
      exact ships_set_target_ok hTW (shipTargetOK_eval rfl (fun u => by simp))
    · unfold traderTargetsOK
      dsimp only
      exact ships_set_target_ok hTW (shipTargetOK_eval rfl (fun u => by simp))
  | Wander =>
    dsimp only
    cases hj : (shipAt st.ships i).job with
    | Pirate o =>
      dsimp only
      split
      · unfold traderTargetsOK
        dsimp only
        exact ships_set_target_ok hTW
          (shipTargetOK_eqv (hTW _ (shipAt_mem hi)) (by first | rfl | rw [hj]) rfl)
      · refine traderTargetsOK_update_ship_goal cfg O _ i ?_
        unfold traderTargetsOK
        dsimp only
        exact ships_set_target_ok hTW
          (shipTargetOK_eqv (hTW _ (shipAt_mem hi)) (by first | rfl | rw [hj]) rfl)
    | Trader c => exact hTW
    | Miner => exact hTW
  | Scan => exact traderTargetsOK_update_ship_goal cfg O st i hTW
  | Hunt prey progress =>
    dsimp only
    have h1 : ∀ sh ∈ st.ships.set i (update_ship_pos O (shipAt st.ships i)
        (shipAt st.ships prey).pos), shipTargetOK st.system sh = true :=
      ships_set_target_ok hTW (shipTargetOK_eqv (hTW _ (shipAt_mem hi)) rfl rfl)
    cases hpj : (shipAt (st.ships.set i (update_ship_pos O (shipAt st.ships i)
        (shipAt st.ships prey).pos)) prey).job with
    | Trader cargo =>
      dsimp only
      have hplen : prey < (st.ships.set i (update_ship_pos O (shipAt st.ships i)
          (shipAt st.ships prey).pos)).length := by
        by_contra hc
        rw [shipAt_out_of_range (Nat.le_of_not_lt hc)] at hpj
        exact absurd hpj (by simp [junkShip, Ship.new])
      split
      · exact traderTargetsOK_update_ship_goal cfg O _ i h1
      · split
        · split
          · refine traderTargetsOK_update_ship_goal cfg O _ i ?_
            unfold traderTargetsOK
            dsimp only
            refine ships_set_target_ok (ships_set_target_ok h1 ?_) ?_
            · exact shipTargetOK_eqv (h1 _ (shipAt_mem hplen))
                (by first | rfl | rw [hpj]) rfl
            · exact shipTargetOK_eval rfl (fun u => by simp)
          · unfold traderTargetsOK
            dsimp only
            refine ships_set_target_ok (ships_set_target_ok h1 ?_) ?_
            · exact shipTargetOK_eqv (h1 _ (shipAt_mem hplen))
                (by first | rfl | rw [hpj]) rfl
            · exact shipTargetOK_eval rfl (fun u => by simp)
        · unfold traderTargetsOK
          dsimp only
          exact ships_set_target_ok h1 (shipTargetOK_eval rfl (fun u => by simp))
    | Miner => exact h1
    | Pirate o => exact h1

theorem goal_phase_econ {cfg : SimConfig} {O : Oracle} {st st' : Sim} {i : ℕ}
    {J : Prop}
    (hTW' : traderTargetsOK st')
    (hHunt : ∀ origin prey progress, (shipAt st'.ships i).job = ShipJob.Pirate origin →
      (shipAt st'.ships i).goal = ShipGoal.Hunt prey progress →
      (shipAt st'.ships prey).job ≠ ShipJob.Trader true)
    (hecon : econSum st' = econSum st)
    (hJ : (shipAt st'.ships i).job = ShipJob.Miner → J) :
    econSum (update_ship_goal cfg O st' i) = econSum st ∨
    (econSum (update_ship_goal cfg O st' i) = econSum st + 1 ∧ J) := by
  rcases update_ship_goal_econ cfg O st' i hTW' hHunt with h | ⟨h, hm⟩
  · exact Or.inl (by omega)
  · exact Or.inr ⟨by omega, hJ hm⟩

theorem update_ship_econ (cfg : SimConfig) (O : Oracle) (st : Sim) (i : ℕ)
    (hi : i < st.ships.length) (hTW : traderTargetsOK st)
    (hraid : raidStep cfg O st i = false) :
    econSum (update_ship cfg O st i) = econSum st ∨
    (econSum (update_ship cfg O st i) = econSum st + 1 ∧
      (shipAt st.ships i).job = ShipJob.Miner) := by
  unfold update_ship
  cases hg : (shipAt st.ships i).goal with
  | Visit target =>
    dsimp only
    split
    · refine goal_phase_econ ?_ ?_ ?_ ?_
      · unfold traderTargetsOK
        dsimp only
        exact ships_set_target_ok hTW (shipTargetOK_eqv (hTW _ (shipAt_mem hi)) rfl rfl)
      · intro o p pr hpj2 hpg2
        dsimp only at hpg2
        rw [shipAt_set_self _ hi] at hpg2
        dsimp only [update_ship_pos] at hpg2
        rw [hg] at hpg2
        exact absurd hpg2 (by simp)
      · unfold econSum
        dsimp only
        congr 1
        exact cargoCount_set_same (by exact rfl)
      · intro hm
        dsimp only at hm
        rw [shipAt_set_self _ hi] at hm
        exact hm
    · left
      unfold econSum
      dsimp only
      congr 1
      exact cargoCount_set_same (by exact rfl)
  | Wait target progress =>
    dsimp only
    split
    · refine goal_phase_econ ?_ ?_ ?_ ?_
      · unfold traderTargetsOK
        dsimp only
        exact ships_set_target_ok hTW (shipTargetOK_eval rfl (fun u => by simp))
      · intro o p pr hpj2 hpg2
        dsimp only at hpg2
        rw [shipAt_set_self _ hi] at hpg2
        try dsimp only at hpg2
        exact absurd hpg2 (by simp)
      · unfold econSum
        dsimp only
        congr 1
        exact cargoCount_set_same (by exact rfl)
      · intro hm
        dsimp only at hm
        rw [shipAt_set_self _ hi] at hm
        exact hm
    · left
      unfold econSum
      dsimp only
      congr 1
      exact cargoCount_set_same (by exact rfl)
  | Wander =>
    dsimp only
    cases hj : (shipAt st.ships i).job with
    | Pirate o =>
      dsimp only
      split
      · left
        unfold econSum
        dsimp only
        congr 1
        exact cargoCount_set_same (by first | exact rfl | rw [hj])
      · refine goal_phase_econ ?_ ?_ ?_ ?_
        · unfold traderTargetsOK
          dsimp only
          exact ships_set_target_ok hTW
            (shipTargetOK_eqv (hTW _ (shipAt_mem hi)) (by first | rfl | rw [hj]) rfl)
        · intro o2 p pr hpj2 hpg2
          dsimp only at hpg2
          rw [shipAt_set_self _ hi] at hpg2
          dsimp only at hpg2
          rw [hg] at hpg2
          exact absurd hpg2 (by simp)
        · unfold econSum
          dsimp only
          congr 1
          exact cargoCount_set_same (by first | exact rfl | rw [hj])
        · intro hm
          dsimp only at hm
          rw [shipAt_set_self _ hi] at hm
          try dsimp only at hm
          exact hm
    | Trader c => exact Or.inl rfl
    | Miner => exact Or.inl rfl
  | Scan =>
    refine goal_phase_econ hTW ?_ rfl (fun hm => hm)
    intro o p pr hpj2 hpg2
    rw [hg] at hpg2
    exact absurd hpg2 (by simp)
  | Hunt prey progress =>
    dsimp only
    cases hpj : (shipAt (st.ships.set i (update_ship_pos O (shipAt st.ships i)
        (shipAt st.ships prey).pos)) prey).job with
    | Trader cargo =>
      dsimp only
      have h1 : ∀ sh ∈ st.ships.set i (update_ship_pos O (shipAt st.ships i)
          (shipAt st.ships prey).pos), shipTargetOK st.system sh = true :=
        ships_set_target_ok hTW (shipTargetOK_eqv (hTW _ (shipAt_mem hi)) rfl rfl)
      split
      · rename_i hc
        refine goal_phase_econ h1 ?_ ?_ ?_
        · intro o p pr hpj2 hpg2
          dsimp only at hpg2
          rw [shipAt_set_self _ hi] at hpg2
          dsimp only [update_ship_pos] at hpg2
          rw [hg] at hpg2
          injection hpg2 with e1 e2
          subst e1
          dsimp only
          rw [hpj, hc]
          simp
        · unfold econSum
          dsimp only
          congr 1
          exact cargoCount_set_same (by exact rfl)
        · intro hm
          dsimp only at hm
          rw [shipAt_set_self _ hi] at hm
          exact hm
      · split
        · split
          · exfalso
            rename_i hcargo hdist hdur
            have hct : cargo = true := by
              cases cargo
              · exact absurd rfl hcargo
              · rfl
            have htrue : raidStep cfg O st i = true := by
              unfold raidStep
              rw [hg]
              dsimp only
              rw [hpj]
              dsimp only
              rw [hct]
              simp [hdist, hdur]
            rw [hraid] at htrue
            exact Bool.false_ne_true htrue
          · left
            unfold econSum
            dsimp only
            congr 1
            exact (cargoCount_set_same (by exact rfl)).trans
              ((cargoCount_set_same (by first | exact rfl | rw [hpj])).trans
                (cargoCount_set_same (by exact rfl)))
        · left
          unfold econSum
          dsimp only
          congr 1
          exact (cargoCount_set_same (by exact rfl)).trans
            (cargoCount_set_same (by exact rfl))
    | Miner =>
      left
      unfold econSum
      dsimp only
      congr 1
      exact cargoCount_set_same (by exact rfl)
    | Pirate o =>
      left
      unfold econSum
      dsimp only
      congr 1
      exact cargoCount_set_same (by exact rfl)

theorem shipsUpTo_succ (cfg : SimConfig) (O : Oracle) (st : Sim) (n : ℕ) :
    shipsUpTo cfg O st (n + 1) = update_ship cfg O (shipsUpTo cfg O st n) n := by
  unfold shipsUpTo
  rw [List.range_succ, List.foldl_append]
  rfl

theorem shipsUpTo_len (cfg : SimConfig) (O : Oracle) (st : Sim) :
    ∀ n, (shipsUpTo cfg O st n).ships.length = st.ships.length
  | 0 => rfl
  | n + 1 => by rw [shipsUpTo_succ, update_ship_len, shipsUpTo_len cfg O st n]

theorem shipsUpTo_ok (cfg : SimConfig) (O : Oracle) (st : Sim)
    (hTW : traderTargetsOK st) :
    ∀ n, n ≤ st.ships.length →
      (∀ k, k < n → raidStep cfg O (shipsUpTo cfg O st k) k = false) →
      ∃ m, m ≤ n ∧ econSum (shipsUpTo cfg O st n) = econSum st + m ∧
        (shipsUpTo cfg O st n).killed = st.killed ∧
        traderTargetsOK (shipsUpTo cfg O st n)
  | 0, _, _ => ⟨0, le_rfl, rfl, rfl, hTW⟩
  | n + 1, hn, hr => by
    obtain ⟨m, hm, hecon, hkill, hTW'⟩ :=
      shipsUpTo_ok cfg O st hTW n (Nat.le_of_succ_le hn)
        (fun k hk => hr k (Nat.lt_succ_of_lt hk))
    have hlen : n < (shipsUpTo cfg O st n).ships.length := by
      rw [shipsUpTo_len]
      omega
    have hraidn := hr n (Nat.lt_succ_self n)
    have hstep := update_ship_econ cfg O _ n hlen hTW' hraidn
    have hkill' := update_ship_killed cfg O _ n hraidn
    have hTW'' := traderTargetsOK_update_ship cfg O _ n hlen hTW'
    rw [shipsUpTo_succ]
    rcases hstep with h | ⟨h, _⟩
    · exact ⟨m, by omega, by omega, by rw [hkill', hkill], hTW''⟩
    · exact ⟨m + 1, by omega, by omega, by rw [hkill', hkill], hTW''⟩

theorem shipsPhase_eq_upTo (cfg : SimConfig) (O : Oracle) (st : Sim) :
    shipsPhase cfg O st = shipsUpTo cfg O st st.ships.length := rfl

theorem traderTargetsOK_planetPhase (O : Oracle) (st : Sim)
    (hTW : traderTargetsOK st) : traderTargetsOK (planetPhase O st) := fun sh hm => by
  show shipTargetOK
    (update_planet_pos O st.system_rad st.system.length st.system 0) sh = true
  rw [shipTargetOK_congr (fun t =>
    congrArg Option.isSome (stockOf_congr (planetAt_feat_congr
      (update_planet_pos_feats O st.system_rad st.system.length st.system 0) t)))]
  exact hTW sh hm

theorem spawnShipFrom_feat {cfg : SimConfig} {O : Oracle} {j : ℕ} {pl : Planet}
    {sh : Ship} (h : spawnShipFrom cfg O (j, pl) = some sh) :
    ∃ s, pl.feat = some (PlanetFeature.Station s) := by
  unfold spawnShipFrom at h
  revert h
  cases hf : pl.feat with
  | none => simp
  | some f =>
    cases f with
    | Station s => intro _; exact ⟨s, rfl⟩
    | Ore => simp

theorem traderTargetsOK_spawnPhase (cfg : SimConfig) (O : Oracle) (st : Sim)
    (hTW : traderTargetsOK st) : traderTargetsOK (spawnPhase cfg O st) := fun sh hm => by
  show shipTargetOK (st.system.map (spawnStock cfg)) sh = true
  rw [shipTargetOK_congr (fun t => stockOf_isSome_spawnSys cfg st.system t)]
  rcases List.mem_append.mp hm with h | h
  · exact hTW sh h
  · rcases List.mem_filterMap.mp h with ⟨⟨j, pl⟩, hjm, hsp⟩
    obtain ⟨s, hf⟩ := spawnShipFrom_feat hsp
    obtain ⟨hle, hget⟩ := enumFrom_mem_get? (by simpa [List.enum] using hjm)
    refine shipTargetOK_visit_true (spawnShipFrom_goal hsp) ?_
    have hpl : planetAt st.system j = pl := by
      unfold planetAt List.getD
      rw [Nat.sub_zero] at hget
      rw [hget]
      rfl
    rw [hpl]
    unfold stockOf
    rw [hf]
    rfl

theorem killPhase_econ {st : Sim} (h : st.killed = []) :
    econSum (killPhase st) = econSum st := by
  unfold killPhase econSum
  dsimp only
  rw [h]
  rfl

theorem tick_econ (cfg : SimConfig) (O : Oracle) (st : Sim) (h : tickOK cfg O st) :
    ∃ m, m ≤ (spawnPhase cfg O (planetPhase O st)).ships.length ∧
      econSum (Sim.update cfg O st) + cfg.ship_cost * tickSpawned cfg O st =
        econSum st + m := by
  obtain ⟨hkill, hTW, hraid⟩ := h
  have hTW1 := traderTargetsOK_planetPhase O st hTW
  have hTW2 := traderTargetsOK_spawnPhase cfg O (planetPhase O st) hTW1
  have hecon1 : econSum (planetPhase O st) = econSum st := planetPhase_econ O st
  have hspawn := spawnPhase_econ cfg O (planetPhase O st)
  have hsplen : (spawnPhase cfg O (planetPhase O st)).ships.length -
      (planetPhase O st).ships.length = tickSpawned cfg O st := by
    show ((planetPhase O st).ships ++ _).length - _ = _
    rw [List.length_append]
    unfold tickSpawned
    omega
  obtain ⟨m, hm, hecon3, hkill3, _⟩ :=
    shipsUpTo_ok cfg O (spawnPhase cfg O (planetPhase O st)) hTW2
      (spawnPhase cfg O (planetPhase O st)).ships.length le_rfl hraid
  have hkill2 : (shipsPhase cfg O (spawnPhase cfg O (planetPhase O st))).killed = [] := by
    rw [shipsPhase_eq_upTo, hkill3]
    exact hkill
  have hke : econSum (Sim.update cfg O st) =
      econSum (shipsPhase cfg O (spawnPhase cfg O (planetPhase O st))) := by
    show econSum (killPhase _) = _
    exact killPhase_econ hkill2
  refine ⟨m, hm, ?_⟩
  rw [hke, shipsPhase_eq_upTo, hecon3, ← hsplen]
  omega

theorem sim_update_killed (cfg : SimConfig) (O : Oracle) (st : Sim) :
    (Sim.update cfg O st).killed = [] := rfl

theorem seq_econ (cfg : SimConfig) (O : Oracle) (st : Sim) :
    ∀ n, (∀ j, j < n → tickOK cfg O ((Sim.update cfg O)^[j] st)) →
      ∃ m, econSum ((Sim.update cfg O)^[n] st) +
          cfg.ship_cost * ((List.range n).map
            (fun j => tickSpawned cfg O ((Sim.update cfg O)^[j] st))).sum =
        econSum st + m
  | 0, _ => ⟨0, by simp⟩
  | n + 1, hj => by
    obtain ⟨m, hm⟩ := seq_econ cfg O st n (fun j hjn => hj j (Nat.lt_succ_of_lt hjn))
    obtain ⟨m2, _, hm2⟩ :=
      tick_econ cfg O ((Sim.update cfg O)^[n] st) (hj n (Nat.lt_succ_self n))
    refine ⟨m + m2, ?_⟩
    rw [Function.iterate_succ_apply', List.range_succ, List.map_append, List.sum_append]
    simp only [List.map_cons, List.map_nil, List.sum_cons, List.sum_nil, Nat.add_zero]
    rw [Nat.mul_add]
    omega

/-- C6 (amended claim): conservation of the economy quantity (total station
stock plus in-flight cargo units) across raid-free ticks.  Per operation: a
trader's arrival transition (deposit plus possible paired pickup) leaves the
sum unchanged; a miner's deposit at a station adds exactly one; the
trader-spawning phase removes exactly `ship_cost` units per spawned trader
(the original claim asserted spawning leaves the sum unchanged, which the
counterexample refutes); the orbit phase leaves the sum unchanged; the
removal phase with an empty kill list (as at every tick entry of a raid-free
run) leaves the sum unchanged.  Per ship update, under the panic-freedom
condition `traderTargetsOK` and when the step completes no raid, one
`update_ship` call preserves the sum unless the ship is a miner, which can
add exactly one.  Composed over one tick and over any sequence of raid-free
ticks (`tickOK`), the sum changes only by miner deposits (at most one per
ship per tick, the `m` below) minus `ship_cost` per spawned trader. -/
theorem claim_C6_econ :
    (∀ (cfg : SimConfig) (O : Oracle) (st : Sim) (i target s : ℕ) (cargo : Bool),
      i < st.ships.length →
      (shipAt st.ships i).job = ShipJob.Trader cargo →
      (shipAt st.ships i).goal = ShipGoal.Visit target →
      stockOf (planetAt st.system target) = some s →
      (station_indices st.system).filter (fun pl => pl ≠ target) ≠ [] →
      econSum (update_ship_goal cfg O st i) = econSum st) ∧
    (∀ (cfg : SimConfig) (O : Oracle) (st : Sim) (i target s : ℕ),
      (shipAt st.ships i).job = ShipJob.Miner →
      (shipAt st.ships i).goal = ShipGoal.Visit target →
      stockOf (planetAt st.system target) = some s →
      econSum (update_ship_goal cfg O st i) = econSum st + 1) ∧
    (∀ (cfg : SimConfig) (O : Oracle) (st : Sim),
      econSum (spawnPhase cfg O st) +
          cfg.ship_cost * ((spawnPhase cfg O st).ships.length - st.ships.length) =
        econSum st) ∧
    (∀ (O : Oracle) (st : Sim), econSum (planetPhase O st) = econSum st) ∧
    (∀ st : Sim, st.killed = [] → econSum (killPhase st) = econSum st) ∧
    (∀ (cfg : SimConfig) (O : Oracle) (st : Sim) (i : ℕ),
      i < st.ships.length → traderTargetsOK st → raidStep cfg O st i = false →
      econSum (update_ship cfg O st i) = econSum st ∨
      (econSum (update_ship cfg O st i) = econSum st + 1 ∧
        (shipAt st.ships i).job = ShipJob.Miner)) ∧
    (∀ (cfg : SimConfig) (O : Oracle) (st : Sim), tickOK cfg O st →
      ∃ m, m ≤ (spawnPhase cfg O (planetPhase O st)).ships.length ∧
        econSum (Sim.update cfg O st) + cfg.ship_cost * tickSpawned cfg O st =
          econSum st + m) ∧
    (∀ (cfg : SimConfig) (O : Oracle) (st : Sim) (n : ℕ),
      (∀ j, j < n → tickOK cfg O ((Sim.update cfg O)^[j] st)) →
      ∃ m, econSum ((Sim.update cfg O)^[n] st) +
          cfg.ship_cost * ((List.range n).map
            (fun j => tickSpawned cfg O ((Sim.update cfg O)^[j] st))).sum =
        econSum st + m) :=
  ⟨fun cfg O st i target s cargo hi hjob hgoal hstock _ =>
      trader_arrival_econ cfg O st i target s cargo hi hjob hgoal hstock,
    fun cfg O st i target s hjob hgoal hstock =>
      miner_arrival_econ cfg O st i target s hjob hgoal hstock,
    spawnPhase_econ,
    planetPhase_econ,
    fun _ h => killPhase_econ h,
    fun cfg O st i hi hTW hraid => update_ship_econ cfg O st i hi hTW hraid,
    tick_econ,
    fun cfg O st n h => seq_econ cfg O st n h⟩

/-- Witness for C6: the cargo-free trader of `simC4` arrives (sum stays
`5`); a miner deposits at the same station (sum becomes `6`, also through
the full `update_ship` step); the removal phase of `simC6` is a no-op; and
the tick and two-tick conservation equations hold concretely on `simC6`
(stock `5`, ship cost `4`, one trader spawned in the first tick). -/
theorem claim_C6_econ_witness :
    econSum (update_ship_goal cfgC1 O0 simC4 0) = econSum simC4 ∧
    econSum (update_ship_goal cfgC1 O0 simC6m 0) = econSum simC6m + 1 ∧
    econSum (killPhase simC6) = econSum simC6 ∧
    (econSum (update_ship cfgC1 O0 simC6m 0) = econSum simC6m ∨
      (econSum (update_ship cfgC1 O0 simC6m 0) = econSum simC6m + 1 ∧
        (shipAt simC6m.ships 0).job = ShipJob.Miner)) ∧
    (∃ m, m ≤ (spawnPhase cfgC1 O0 (planetPhase O0 simC6)).ships.length ∧
      econSum (Sim.update cfgC1 O0 simC6) +
          cfgC1.ship_cost * tickSpawned cfgC1 O0 simC6 =
        econSum simC6 + m) ∧
    (∃ m, econSum ((Sim.update cfgC1 O0)^[2] simC6) +
        cfgC1.ship_cost * ((List.range 2).map
          (fun j => tickSpawned cfgC1 O0 ((Sim.update cfgC1 O0)^[j] simC6))).sum =
      econSum simC6 + m) :=
  ⟨claim_C6_econ.1 cfgC1 O0 simC4 0 1 2 false (by with_unfolding_all decide)
      (by with_unfolding_all decide) (by with_unfolding_all decide)
      (by with_unfolding_all decide) (by with_unfolding_all decide),
    claim_C6_econ.2.1 cfgC1 O0 simC6m 0 1 2 (by with_unfolding_all decide)
      (by with_unfolding_all decide) (by with_unfolding_all decide),
    claim_C6_econ.2.2.2.2.1 simC6 (by with_unfolding_all decide),
    claim_C6_econ.2.2.2.2.2.1 cfgC1 O0 simC6m 0 (by with_unfolding_all decide)
      (by unfold traderTargetsOK; with_unfolding_all decide)
      (by with_unfolding_all decide),
    claim_C6_econ.2.2.2.2.2.2.1 cfgC1 O0 simC6
      (by unfold tickOK traderTargetsOK; with_unfolding_all decide),
    claim_C6_econ.2.2.2.2.2.2.2 cfgC1 O0 simC6 2
      (by unfold tickOK traderTargetsOK; with_unfolding_all decide)⟩

set_option maxRecDepth 40000 in
/-- C6 (counterexample): one raid-free tick of a system whose only station
holds `5` units (cost `4`) drops the conserved quantity from `5` to `1`:
trader spawning burns the ship cost. -/
theorem claim_C6_counterexample :
    econSum simC6 = 5 ∧ econSum (Sim.update cfgC1 O0 simC6) = 1 := by
  constructor
  · with_unfolding_all decide
  · with_unfolding_all decide

set_option maxRecDepth 40000 in
/-- C8 (counterexample): two configurations that agree on every field
except the pirate territory radius give different scan outcomes for the
same pirate and the same cargo trader at distance `2` — the detection range
is `pirate_territory * 0.5`, not a separate configured value. -/
theorem claim_C8_counterexample :
    (shipAt (update_ship_goal cfgC8a OC8 simC8 0).ships 0).goal = ShipGoal.Wander ∧
    (shipAt (update_ship_goal cfgC8b OC8 simC8 0).ships 0).goal = ShipGoal.Hunt 1 (-20) ∧
    cfgC8a = { cfgC8b with pirate_territory := 2 } := by
  refine ⟨by with_unfolding_all decide, by with_unfolding_all decide,
    by with_unfolding_all decide⟩

/-- C8 (amended claim): when a pirate completes a `Scan` goal, the movement
phase is skipped entirely (`update_ship` is exactly `update_ship_goal`, so
`Scan` signals completion every tick and the ship does not move); the
candidates are exactly the registry indices holding a cargo-carrying trader
whose distance to the pirate is below `pirate_territory * 0.5` (a value
derived from the territory radius — there is no separate configured
detection range); a candidate chosen by the uniform draw becomes
`Hunt{prey}` with jittered initial progress, and an empty candidate list
yields `Wander`. -/
theorem claim_C8_scan (cfg : SimConfig) (O : Oracle) (st : Sim) (i : ℕ)
    (origin : ℚ × ℚ)
    (hi : i < st.ships.length)
    (hjob : (shipAt st.ships i).job = ShipJob.Pirate origin)
    (hgoal : (shipAt st.ships i).goal = ShipGoal.Scan)
    (hterr : 0 ≤ cfg.pirate_territory)
    (hsq : ∀ t, t < st.ships.length →
      0 ≤ O.sqrtF (dist2 (shipAt st.ships i).pos (shipAt st.ships t).pos) ∧
      O.sqrtF (dist2 (shipAt st.ships i).pos (shipAt st.ships t).pos) ^ 2 =
        dist2 (shipAt st.ships i).pos (shipAt st.ships t).pos) :
    update_ship cfg O st i = update_ship_goal cfg O st i ∧
    (∀ t, t ∈ scanCandidates cfg O st i ↔
      t < st.ships.length ∧ (shipAt st.ships t).job = ShipJob.Trader true ∧
        dist2 (shipAt st.ships i).pos (shipAt st.ships t).pos <
          (cfg.pirate_territory * (1 / 2)) ^ 2) ∧
    (∀ j, (shipAt (update_ship_goal cfg O st i).ships j).pos =
      (shipAt st.ships j).pos) ∧
    ((scanCandidates cfg O st i = [] →
       (update_ship_goal cfg O st i).ships =
         st.ships.set i { shipAt st.ships i with goal := ShipGoal.Wander }) ∧
     (∀ p, chooseList (scanCandidates cfg O st i) (O.pickD st.rng) = some p →
       p ∈ scanCandidates cfg O st i ∧
       (update_ship_goal cfg O st i).ships =
         st.ships.set i
           { shipAt st.ships i with
               goal := ShipGoal.Hunt p
                   (chooseRange cfg.raid_lo cfg.raid_hi (O.rangeD (st.rng + 1))) })) := by
  have hkey : ∀ (res : Option ℕ),
      chooseList (scanCandidates cfg O st i) (O.pickD st.rng) = res →
      update_ship_goal cfg O st i =
        match res with
        | some p =>
          { st with
              rng := st.rng + 2
              ships := st.ships.set i
                { shipAt st.ships i with
                    goal := ShipGoal.Hunt p
                        (chooseRange cfg.raid_lo cfg.raid_hi (O.rangeD (st.rng + 1))) } }
        | none =>
          { st with
              rng := st.rng + 1
              ships := st.ships.set i
                { shipAt st.ships i with goal := ShipGoal.Wander } } := by
    intro res hres
    simp only [update_ship_goal, hjob, hgoal]
    unfold scanCandidates at hres
    rw [hres]
  refine ⟨?_, ?_, ?_, ?_, ?_⟩
  · simp only [update_ship, hgoal]
  · intro t
    unfold scanCandidates
    rw [List.mem_filter, List.mem_range]
    constructor
    · rintro ⟨ht, hcond⟩
      refine ⟨ht, ?_⟩
      obtain ⟨hnn, hsqr⟩ := hsq t ht
      rcases hjt : (shipAt st.ships t).job with cargo | _ | oo
      · cases cargo with
        | false =>
          rw [hjt] at hcond
          simp at hcond
        | true =>
          rw [hjt] at hcond
          dsimp only at hcond
          have hlt := of_decide_eq_true hcond
          exact ⟨rfl, by nlinarith [hlt, hnn, hsqr]⟩
      · rw [hjt] at hcond
        simp at hcond
      · rw [hjt] at hcond
        simp at hcond
    · rintro ⟨ht, hjt, hd⟩
      refine ⟨ht, ?_⟩
      rw [hjt]
      dsimp only
      rw [decide_eq_true_eq]
      obtain ⟨hnn, hsqr⟩ := hsq t ht
      have hc : 0 ≤ cfg.pirate_territory * (1 / 2) := by linarith
      nlinarith [hd, hsqr, hnn, hc]
  · intro j
    rcases hopt : chooseList (scanCandidates cfg O st i) (O.pickD st.rng) with _ | p
    · rw [hkey none hopt]
      dsimp only
      rcases eq_or_ne i j with rfl | hne
      · rw [shipAt_set_self _ hi]
      · rw [shipAt_set_ne _ hne]
    · rw [hkey (some p) hopt]
      dsimp only
      rcases eq_or_ne i j with rfl | hne
      · rw [shipAt_set_self _ hi]
      · rw [shipAt_set_ne _ hne]
  · intro hemp
    have hopt : chooseList (scanCandidates cfg O st i) (O.pickD st.rng) = none := by
      rw [hemp]
      rfl
    rw [hkey none hopt]
  · intro p hp
    exact ⟨chooseList_mem hp, by rw [hkey (some p) hp]⟩

/-- Witness for C8: under territory radius `12` (detection range `6`) the
pirate of `simC8w` detects the cargo trader at distance `5` and starts
hunting it. -/
theorem claim_C8_scan_witness :
    update_ship cfgC8w OC8w simC8w 0 = update_ship_goal cfgC8w OC8w simC8w 0 ∧
    (∀ t, t ∈ scanCandidates cfgC8w OC8w simC8w 0 ↔
      t < simC8w.ships.length ∧ (shipAt simC8w.ships t).job = ShipJob.Trader true ∧
        dist2 (shipAt simC8w.ships 0).pos (shipAt simC8w.ships t).pos <
          (cfgC8w.pirate_territory * (1 / 2)) ^ 2) ∧
    (∀ j, (shipAt (update_ship_goal cfgC8w OC8w simC8w 0).ships j).pos =
      (shipAt simC8w.ships j).pos) ∧
    ((scanCandidates cfgC8w OC8w simC8w 0 = [] →
       (update_ship_goal cfgC8w OC8w simC8w 0).ships =
         simC8w.ships.set 0 { shipAt simC8w.ships 0 with goal := ShipGoal.Wander }) ∧
     (∀ p, chooseList (scanCandidates cfgC8w OC8w simC8w 0) (OC8w.pickD simC8w.rng) =
         some p →
       p ∈ scanCandidates cfgC8w OC8w simC8w 0 ∧
       (update_ship_goal cfgC8w OC8w simC8w 0).ships =
         simC8w.ships.set 0
           { shipAt simC8w.ships 0 with
               goal := ShipGoal.Hunt p
                   (chooseRange cfgC8w.raid_lo cfgC8w.raid_hi
                     (OC8w.rangeD (simC8w.rng + 1))) })) :=
  claim_C8_scan cfgC8w OC8w simC8w 0 (0, 0) (by with_unfolding_all decide)
    (by with_unfolding_all decide) (by with_unfolding_all decide)
    (by with_unfolding_all decide) (by with_unfolding_all decide)

/-- C10: `pirate_in_range` on a ship whose goal is `Hunt{prey}` reports
(through the `f32` square root) exactly whether the Euclidean distance from
the pirate to the prey is strictly below the configured raid range, and on
any existing ship whose goal is not `Hunt` it panics (embedded as `none`). -/
theorem claim_C10_pirate_in_range (cfg : SimConfig) (O : Oracle) (st : Sim)
    (i prey : ℕ) (progress : ℤ) (pirate preyShip : Ship)
    (hp : st.ships.get? i = some pirate)
    (hgoal : pirate.goal = ShipGoal.Hunt prey progress)
    (hq : st.ships.get? prey = some preyShip)
    (hrr : 0 ≤ cfg.raid_range)
    (hsq : 0 ≤ O.sqrtF (dist2 pirate.pos preyShip.pos) ∧
      O.sqrtF (dist2 pirate.pos preyShip.pos) ^ 2 = dist2 pirate.pos preyShip.pos) :
    pirate_in_range cfg O st i =
      some (decide (dist2 pirate.pos preyShip.pos < cfg.raid_range ^ 2)) ∧
    (∀ j (sh : Ship), st.ships.get? j = some sh →
      (∀ pr pg, sh.goal ≠ ShipGoal.Hunt pr pg) →
      pirate_in_range cfg O st j = none) := by
  constructor
  · unfold pirate_in_range
    rw [hp]
    dsimp only
    rw [hgoal]
    dsimp only
    rw [hq]
    dsimp only
    obtain ⟨hnn, hsqr⟩ := hsq
    congr 1
    rw [decide_eq_decide]
    constructor
    · intro hlt
      nlinarith [hlt, hnn, hsqr]
    · intro hlt
      nlinarith [hlt, hnn, hsqr, hrr]
  · intro j sh hj hng
    unfold pirate_in_range
    rw [hj]
    dsimp only
    cases hg : sh.goal <;> first | rfl | exact absurd hg (hng _ _)

/-- Witness for C10: the hunting pirate of `simC10` is at distance `5` from
its prey, below the raid range `6`. -/
theorem claim_C10_pirate_in_range_witness :
    pirate_in_range cfgC10 OC8w simC10 0 =
      some (decide (dist2 (mkShip (0, 0) (ShipJob.Pirate (0, 0))
          (ShipGoal.Hunt 1 0)).pos
        (mkShip (3, 4) (ShipJob.Trader true) ShipGoal.Wander).pos <
          cfgC10.raid_range ^ 2)) ∧
    (∀ j (sh : Ship), simC10.ships.get? j = some sh →
      (∀ pr pg, sh.goal ≠ ShipGoal.Hunt pr pg) →
      pirate_in_range cfgC10 OC8w simC10 j = none) :=
  claim_C10_pirate_in_range cfgC10 OC8w simC10 0 1 0
    (mkShip (0, 0) (ShipJob.Pirate (0, 0)) (ShipGoal.Hunt 1 0))
    (mkShip (3, 4) (ShipJob.Trader true) ShipGoal.Wander)
    (by with_unfolding_all decide) (by with_unfolding_all decide)
    (by with_unfolding_all decide) (by with_unfolding_all decide)
    (by with_unfolding_all decide)

end Solisora
